import Mathlib

/-!
Verification of the jsonf serialization library (src/mod.ts).

The development shallowly embeds the JavaScript code of src/mod.ts:

* A defunctionalized model of JavaScript runtime values (`Value`), where
  functions are identified by what they are (a class object, a prototype
  method, a static member, a bound copy of another function, or an opaque
  external function) and any value may carry an attached tag object under
  the reserved property name, exactly as `Object.assign(v, { $MAGIC$: m })`
  leaves it.
* A model of JSON wire trees (`Json`); the host string writer/reader is
  taken as the identity on such trees, so the serializer produces a `Json`
  tree and the parser consumes one.
* The encoding algorithm of JSONF.stringify (the `replacer` of
  src/mod.ts lines 66-83 together with the traversal order of
  JSON.stringify, which applies a node's toJSON method before the
  replacer), and the decoding algorithm of JSONF.parse (the `reviver` of
  lines 90-120 together with the bottom-up revival order of JSON.parse).
* Class behaviour (constructors, fromJSON factories, toJSON projections,
  static members and prototype methods) is supplied by a `World` table of
  `ClassDesc` records, mirroring how behaviour hangs off live class
  objects in JavaScript.

A separate small heap model (namespace JsonfHeap) embeds the decorator
helpers of lines 22-60, whose observable behaviour is in-place mutation
of property tables, which the pure value model cannot express.
-/

namespace Jsonf

/-- JSON wire trees.  Object fields keep the writer's emission order. -/
inductive Json where
  | jnull
  | jbool (b : Bool)
  | jnum (n : Int)
  | jstr (s : String)
  | jarr (xs : List Json)
  | jobj (fields : List (String × Json))
deriving Repr

/-- Boxed primitive wrappers, the result of Object.assign on a primitive. -/
inductive PrimBox where
  | bnum (n : Int)
  | bstr (s : String)
  | bbool (b : Bool)
deriving Repr, DecidableEq

mutual
/-- Identity of a JavaScript function object in the model: a class
object, a prototype method of a named class, a static member of a named
class, a bound copy of another function, or an opaque function. -/
inductive FuncId where
  | classFn (cls : String)
  | protoMethod (cls : String) (key : String)
  | staticFn (cls : String) (key : String)
  | boundOf (f : FuncId) (recv : Value)
  | extFn (name : String) (id : Nat)

/-- JavaScript runtime values.  Arrays, functions and boxes carry the
optional reserved tag property out of band; plain objects and class
instances carry it as an ordinary field of their property list. -/
inductive Value where
  | vnull
  | vundefined
  | vbool (b : Bool)
  | vnum (n : Int)
  | vstr (s : String)
  | varr (xs : List Value) (magic : Option Value)
  | vobj (fields : List (String × Value))
  | vinst (cls : String) (fields : List (String × Value))
  | vfunc (f : FuncId) (magic : Option Value)
  | vbox (p : PrimBox) (magic : Option Value)
end

/-- JavaScript truthiness of a model value. -/
def truthy : Value → Bool
  | .vnull => false
  | .vundefined => false
  | .vbool b => b
  | .vnum n => n != 0
  | .vstr s => s != ""
  | _ => true

/-- Property read returning none when the property is absent.  Functions,
arrays and boxes expose only the reserved tag property in the model. -/
def getPropOpt : Value → String → Option Value
  | .vobj fs, k => fs.lookup k
  | .vinst _ fs, k => fs.lookup k
  | .vfunc _ m, k => if k = "$MAGIC$" then m else none
  | .varr _ m, k => if k = "$MAGIC$" then m else none
  | .vbox _ m, k => if k = "$MAGIC$" then m else none
  | _, _ => none

/-- JavaScript property access, yielding undefined when absent. -/
def prop (v : Value) (k : String) : Value :=
  (getPropOpt v k).getD .vundefined

/-- String coercion used for property keys and registry lookups. -/
def jsToKey : Value → String
  | .vstr s => s
  | .vnum n => toString n
  | .vbool b => cond b "true" "false"
  | .vnull => "null"
  | .vundefined => "undefined"
  | _ => "object"

/-- The function object's name property, as read by the replacer. -/
def funcName : FuncId → String
  | .classFn c => c
  | .protoMethod _ k => k
  | .staticFn _ k => k
  | .boundOf f _ => "bound " ++ funcName f
  | .extFn n _ => n

/-- Whether a value is a function (callable). -/
def isFunc : Value → Bool
  | .vfunc _ _ => true
  | _ => false

/-- Behaviour of a class, mirroring what hangs off a live class object:
its own name, its constructor (given the constructor argument, the own
enumerable fields of the new instance), optional static fromJSON factory
and instance toJSON projection, an optional static toJSON result, the
values of its static own properties, the call behaviour of its callable
static members, and its prototype members with their call behaviour.
Call behaviours take the receiver and the argument list. -/
structure ClassDesc where
  name : String
  construct : Value → List (String × Value)
  fromJSON : Option (Value → Value) := none
  instToJSON : Option (List (String × Value) → Value) := none
  staticToJSON : Option Value := none
  statics : List (String × Value) := []
  staticCall : List (String × (Value → List Value → Value)) := []
  protos : List (String × Value) := []
  protoCall : List (String × (Value → List Value → Value)) := []

/-- The ambient environment of classes, keyed by class name. -/
def World := List (String × ClassDesc)

/-- The registry passed to JSONF.parse: names mapped to class objects. -/
def Registry := List (String × ClassDesc)

/-- Resolve the call behaviour of a function object through the world. -/
def resolveCall (w : World) : FuncId → Option (Value → List Value → Value)
  | .staticFn c k => (List.lookup c w).bind (fun d => d.staticCall.lookup k)
  | .protoMethod c k => (List.lookup c w).bind (fun d => d.protoCall.lookup k)
  | .boundOf f r => (resolveCall w f).map (fun b => fun _ args => b r args)
  | .classFn _ => none
  | .extFn _ _ => none

/-- Result of calling an instance's toJSON method, when it has a callable
one: an own field named toJSON shadows the class projection, and a
non-callable own field suppresses the call (GetV then IsCallable). -/
def instToJSONVal (w : World) (c : String) (fs : List (String × Value)) : Option Value :=
  match fs.lookup "toJSON" with
  | some (.vfunc fid _) => (resolveCall w fid).map (fun b => b (.vinst c fs) [])
  | some _ => none
  | none => (List.lookup c w).bind (fun d => d.instToJSON.map (fun f => f fs))

/-- The payload the replacer stores in an instance tag: the toJSON result
when available, else the shallow spread of the own enumerable fields. -/
def instProject (w : World) (c : String) (fs : List (String × Value)) : Value :=
  (instToJSONVal w c fs).getD (.vobj fs)

/-- Result of calling a function object's toJSON method: only class
objects with a static toJSON carry one in the model. -/
def funcToJSON (w : World) : FuncId → Option Value
  | .classFn c => (List.lookup c w).bind (fun d => d.staticToJSON)
  | _ => none

/-- The toJSON pre-step of JSON.stringify: objects and functions with a
callable toJSON member are replaced by its call's result. -/
def applyToJSON (w : World) (v : Value) : Value :=
  match v with
  | .vinst c fs => (instToJSONVal w c fs).getD v
  | .vfunc fid _ => (funcToJSON w fid).getD v
  | .vobj fs =>
    match fs.lookup "toJSON" with
    | some (.vfunc fid _) =>
      match resolveCall w fid with
      | some b => b v []
      | none => v
    | _ => v
  | _ => v

/-- Whether a value takes the typed-object branch of the replacer: its
constructor name is neither Array nor Object. -/
def isNonPlainObj : Value → Bool
  | .vinst c _ => !(c = "Array" || c = "Object")
  | .vbox _ _ => true
  | _ => false

/-- Constructor name of a typed object. -/
def ctorName : Value → String
  | .vinst c _ => c
  | .vbox (.bnum _) _ => "Number"
  | .vbox (.bstr _) _ => "String"
  | .vbox (.bbool _) _ => "Boolean"
  | _ => "Object"

/-- Payload stored for a typed object: an instance projects through
instProject; a boxed primitive spreads to its own enumerable fields,
which in the model is its assigned tag property if any. -/
def typedProject (w : World) : Value → Value
  | .vinst c fs => instProject w c fs
  | .vbox _ (some m) => .vobj [("$MAGIC$", m)]
  | _ => .vobj []

/-- The replacer of JSONF.stringify (src/mod.ts lines 67-81).  The fuel
bounds the chain of recursive replacements through function toJSON
results; every branch of the source is reproduced: falsy values pass,
a truthy tag property is emitted verbatim as a single-key tag object,
functions defer to their toJSON or are encoded as a bare name tag, and
typed objects are encoded as a name-plus-payload tag. -/
def replacerF (w : World) : Nat → Value → Option Value
  | 0, _ => none
  | fuel + 1, v =>
    if truthy v then
      if truthy (prop v "$MAGIC$") then
        some (.vobj [("$MAGIC$", prop v "$MAGIC$")])
      else if isFunc v then
        match v with
        | .vfunc fid _ =>
          match funcToJSON w fid with
          | some r => replacerF w fuel r
          | none => some (.vobj [("$MAGIC$", .vobj [("cls", .vstr (funcName fid))])])
        | _ => some v
      else if isNonPlainObj v then
        some (.vobj [("$MAGIC$", .vobj [("cls", .vstr (ctorName v)), ("ths", typedProject w v)])])
      else some v
    else some v

/-- One JSON.stringify serialization step: apply toJSON, then the
replacer, then write the value, recursing into children.  Fields whose
serialization is undefined are dropped; array holes become null.  The
fuel bounds the recursion, which is not structural because toJSON and
the replacer may replace a node by an arbitrary value. -/
def serializeProp (w : World) : Nat → Value → Option Json
  | 0, _ => none
  | fuel + 1, v =>
    match replacerF w (fuel + 1) (applyToJSON w v) with
    | none => none
    | some v2 =>
      match v2 with
      | .vnull => some .jnull
      | .vundefined => none
      | .vbool b => some (.jbool b)
      | .vnum n => some (.jnum n)
      | .vstr s => some (.jstr s)
      | .vfunc _ _ => none
      | .varr xs _ => some (.jarr (xs.map (fun x => (serializeProp w fuel x).getD .jnull)))
      | .vobj fs => some (.jobj (fs.filterMap (fun kv => (serializeProp w fuel kv.2).map (fun j => (kv.1, j)))))
      | .vinst _ fs => some (.jobj (fs.filterMap (fun kv => (serializeProp w fuel kv.2).map (fun j => (kv.1, j)))))
      | .vbox (.bnum n) _ => some (.jnum n)
      | .vbox (.bstr s) _ => some (.jstr s)
      | .vbox (.bbool b) _ => some (.jbool b)

/-- JSONF.stringify (src/mod.ts lines 66-83): the replacer is first
applied to the root by hand, and the result is serialized with the same
replacer installed. -/
def stringify (w : World) (fuel : Nat) (thing : Value) : Option Json :=
  (replacerF w fuel thing).bind (serializeProp w fuel)

/-- Decode-time failures: the JSONFError thrown on a registry miss,
carrying the full tag record, and the host TypeErrors. -/
inductive JErr where
  | unknownClass (context : Value)
  | typeError (msg : String)

/-- The class object as a runtime value. -/
def classValue (cls : ClassDesc) : Value :=
  .vfunc (.classFn cls.name) none

/-- Line 98 of src/mod.ts: construct the instance through the class's
fromJSON factory when it has one, else through its constructor. -/
def mkInstance (cls : ClassDesc) (ths : Value) : Value :=
  match cls.fromJSON with
  | some f => f ths
  | none => .vinst cls.name (cls.construct ths)

/-- Replace-or-append update of a property list. -/
def setField (fs : List (String × Value)) (k : String) (v : Value) : List (String × Value) :=
  match fs with
  | [] => [(k, v)]
  | (k0, v0) :: rest => if k0 = k then (k, v) :: rest else (k0, v0) :: setField rest k v

/-- Store the reserved tag property on a non-primitive value. -/
def setMagicProp : Value → Value → Value
  | .vobj fs, m => .vobj (setField fs "$MAGIC$" m)
  | .vinst c fs, m => .vinst c (setField fs "$MAGIC$" m)
  | .vfunc f _, m => .vfunc f (some m)
  | .varr xs _, m => .varr xs (some m)
  | .vbox p _, m => .vbox p (some m)
  | v, _ => v

/-- Object.assign(v, { $MAGIC$: m }): throws on null or undefined,
boxes a primitive target into a wrapper object carrying the property,
and otherwise stores the property on the target itself. -/
def assignMagic (v m : Value) : Except JErr Value :=
  match v with
  | .vnull => .error (.typeError "Object.assign called on null")
  | .vundefined => .error (.typeError "Object.assign called on undefined")
  | .vnum n => .ok (.vbox (.bnum n) (some m))
  | .vstr s => .ok (.vbox (.bstr s) (some m))
  | .vbool b => .ok (.vbox (.bbool b) (some m))
  | v => .ok (setMagicProp v m)

/-- Function.prototype.bind: a fresh function object, carrying none of
the original's own properties. -/
def bindTo (p o : Value) : Value :=
  match p with
  | .vfunc fid _ => .vfunc (.boundOf fid o) none
  | _ => p

/-- Member read o[k] on the constructed instance: own fields first, then
the prototype members of the instance's class. -/
def instGetMember (w : World) (o : Value) (k : String) : Value :=
  match o with
  | .vinst c fs =>
    match fs.lookup k with
    | some x => x
    | none => ((List.lookup c w).bind (fun d => d.protos.lookup k)).getD .vundefined
  | o => prop o k

/-- Static member read cls[k]. -/
def staticGet (cls : ClassDesc) (k : String) : Value :=
  (cls.statics.lookup k).getD .vundefined

/-- p.apply(recv, argsV): a TypeError unless p is callable with resolvable
behaviour and argsV is an array. -/
def applyMember (w : World) (p recv argsV : Value) : Except JErr Value :=
  match p with
  | .vfunc fid _ =>
    match argsV with
    | .varr xs _ =>
      match resolveCall w fid with
      | some b => .ok (b recv xs)
      | none => .error (.typeError "call behaviour unresolved")
    | _ => .error (.typeError "CreateListFromArrayLike called on non-object")
  | _ => .error (.typeError "p.apply is not a function")

/-- The reviver of JSONF.parse (src/mod.ts lines 91-118), applied to one
node whose children are already revived.  Every branch of the source is
reproduced, including the truthiness tests on the tag and on its ths,
key and args fields. -/
def reviver (w : World) (reg : Registry) (v : Value) : Except JErr Value :=
  if truthy v && truthy (prop v "$MAGIC$") then
    let magic := prop v "$MAGIC$"
    match List.lookup (jsToKey (prop magic "cls")) reg with
    | none => .error (.unknownClass magic)
    | some cls =>
      if truthy (prop magic "ths") then
        let o := mkInstance cls (prop magic "ths")
        if truthy (prop magic "key") then
          let p := instGetMember w o (jsToKey (prop magic "key"))
          let v2 := if isFunc p then bindTo p o else p
          assignMagic v2 magic
        else .ok o
      else
        if truthy (prop magic "key") then
          let p := staticGet cls (jsToKey (prop magic "key"))
          if truthy (prop magic "args") then
            applyMember w p (classValue cls) (prop magic "args")
          else .ok p
        else .ok (classValue cls)
  else .ok v

mutual
/-- JSON.parse with the reviver installed: children are revived before
their parent, in emission order, and the reviver also visits the root. -/
def parseVal (w : World) (reg : Registry) : Json → Except JErr Value
  | .jnull => reviver w reg .vnull
  | .jbool b => reviver w reg (.vbool b)
  | .jnum n => reviver w reg (.vnum n)
  | .jstr s => reviver w reg (.vstr s)
  | .jarr xs => do reviver w reg (.varr (← parseArr w reg xs) none)
  | .jobj fs => do reviver w reg (.vobj (← parseFields w reg fs))

/-- Revive the elements of an array node in order. -/
def parseArr (w : World) (reg : Registry) : List Json → Except JErr (List Value)
  | [] => pure []
  | j :: js => do
    let v ← parseVal w reg j
    let vs ← parseArr w reg js
    pure (v :: vs)

/-- Revive the fields of an object node in order, keeping keys. -/
def parseFields (w : World) (reg : Registry) : List (String × Json) → Except JErr (List (String × Value))
  | [] => pure []
  | (k, j) :: fs => do
    let v ← parseVal w reg j
    let rest ← parseFields w reg fs
    pure ((k, v) :: rest)
end

/-- JSONF.parse (src/mod.ts lines 90-120) on a wire tree. -/
def parse (w : World) (reg : Registry) (j : Json) : Except JErr Value :=
  parseVal w reg j

mutual
/-- Whether a wire tree contains a tag node: an object binding the
reserved key to a plain record (itself tag-free) whose cls field is a
string absent from the registry. -/
def hasUnknownTag (reg : Registry) : Json → Bool
  | .jnull => false
  | .jbool _ => false
  | .jnum _ => false
  | .jstr _ => false
  | .jarr xs => hasUnknownTagList reg xs
  | .jobj fs =>
    (match fs.lookup "$MAGIC$" with
     | some (.jobj ms) =>
       (ms.lookup "$MAGIC$").isNone &&
       (match ms.lookup "cls" with
        | some (.jstr s) => (List.lookup s reg).isNone
        | _ => false)
     | _ => false) ||
    hasUnknownTagFields reg fs

/-- Unknown-tag search through the elements of an array node. -/
def hasUnknownTagList (reg : Registry) : List Json → Bool
  | [] => false
  | j :: js => hasUnknownTag reg j || hasUnknownTagList reg js

/-- Unknown-tag search through the fields of an object node. -/
def hasUnknownTagFields (reg : Registry) : List (String × Json) → Bool
  | [] => false
  | kv :: fs => hasUnknownTag reg kv.2 || hasUnknownTagFields reg fs
end

/-- The static branch of the referrable helper (src/mod.ts lines 23-26):
Object.assign(val, { $MAGIC$: { cls, key } }) where cls is the name of
the decorated class.  The assignment mutates val itself; the pure model
returns the updated value. -/
def referrableStatic (clsName : String) (key : String) (val : Value) : Value :=
  setMagicProp val (.vobj [("cls", .vstr clsName), ("key", .vstr key)])

/-- Concrete fixture: a class with only a constructor, like Simple of
the test suite. -/
def descT : ClassDesc :=
  { name := "T", construct := fun v => [("p", v)] }

/-- Concrete fixture: a class with a fromJSON factory and an instance
toJSON projection that are not the identity, like Fable of the test
suite: the projection unwraps the stored payload and the factory wraps
it back. -/
def descFable : ClassDesc :=
  { name := "Fable"
    construct := fun v => [("json", v)]
    fromJSON := some (fun v => .vinst "Fable" [("json", v)])
    instToJSON := some (fun fs => (fs.lookup "json").getD .vundefined)
    protos := [("method", .vfunc (.protoMethod "Fable" "method") none)]
    protoCall := [("method", fun _ args => .varr args none)] }

/-- Concrete fixture: a class whose static member fun has been marked by
the unbound decorator, like Fancy of the test suite, and whose static
member extend is a factory, like H of the test suite. -/
def descFancy : ClassDesc :=
  { name := "Fancy"
    construct := fun v => [("json", v)]
    statics :=
      [("fun", referrableStatic "Fancy" "fun" (.vfunc (.staticFn "Fancy" "fun") none)),
       ("extend", .vfunc (.staticFn "Fancy" "extend") none)]
    staticCall :=
      [("fun", fun _ args => args.headD .vundefined),
       ("extend", fun _ args => .vfunc (.extFn "J" args.length) none)] }

/-- Distinctness of the keys of a property list, as every JavaScript
object satisfies it. -/
def keysNodup : List (String × Value) → Bool
  | [] => true
  | (k, _) :: fs => !(fs.any (fun kv => kv.1 == k)) && keysNodup fs

/-- The reserved tag field of a property list is absent or falsy. -/
def magicFalsy (fs : List (String × Value)) : Bool :=
  match fs.lookup "$MAGIC$" with
  | some m => !truthy m
  | none => true

mutual
/-- Plain data: null, booleans, numbers, strings, arrays of plain values
and records of plain values, with distinct keys and with no record
binding the reserved tag key to a truthy value. -/
def plainOk : Value → Bool
  | .vnull => true
  | .vbool _ => true
  | .vnum _ => true
  | .vstr _ => true
  | .varr xs none => plainOkList xs
  | .vobj fs => keysNodup fs && magicFalsy fs && plainOkFields fs
  | _ => false

/-- Plainness of a list of values. -/
def plainOkList : List Value → Bool
  | [] => true
  | x :: xs => plainOk x && plainOkList xs

/-- Plainness of the values of a property list. -/
def plainOkFields : List (String × Value) → Bool
  | [] => true
  | kv :: fs => plainOk kv.2 && plainOkFields fs
end

mutual
/-- The wire tree of a plain value. -/
def plainJson : Value → Json
  | .vnull => .jnull
  | .vbool b => .jbool b
  | .vnum n => .jnum n
  | .vstr s => .jstr s
  | .varr xs _ => .jarr (plainJsonList xs)
  | .vobj fs => .jobj (plainJsonFields fs)
  | _ => .jnull

/-- Wire trees of a list of plain values. -/
def plainJsonList : List Value → List Json
  | [] => []
  | x :: xs => plainJson x :: plainJsonList xs

/-- Wire trees of the fields of a plain record. -/
def plainJsonFields : List (String × Value) → List (String × Json)
  | [] => []
  | kv :: fs => (kv.1, plainJson kv.2) :: plainJsonFields fs
end

mutual
/-- Nesting depth of a value, the fuel its serialization consumes. -/
def depthV : Value → Nat
  | .varr xs _ => depthList xs + 1
  | .vobj fs => depthFields fs + 1
  | _ => 1

/-- Greatest depth of a list of values. -/
def depthList : List Value → Nat
  | [] => 0
  | x :: xs => max (depthV x) (depthList xs)

/-- Greatest depth of the values of a property list. -/
def depthFields : List (String × Value) → Nat
  | [] => 0
  | kv :: fs => max (depthV kv.2) (depthFields fs)
end

/-- A record field named toJSON must not be callable, since the host
writer would invoke it (and invoking a bare class object throws). -/
def toJSONSafe (fs : List (String × Value)) : Bool :=
  match fs.lookup "toJSON" with
  | some x => !(isFunc x)
  | none => true

mutual
/-- Encodable values: plain data together with references to registered
class objects.  A class object qualifies when it has no static toJSON,
the registry maps its name, and the mapped class carries that name, so
that decoding the bare-type tag returns the same class object.  Records
keep distinct keys, no truthy reserved tag field, and no callable
toJSON field. -/
def encOk (w : World) (reg : Registry) : Value → Bool
  | .vnull => true
  | .vbool _ => true
  | .vnum _ => true
  | .vstr _ => true
  | .varr xs none => encOkList w reg xs
  | .vobj fs => keysNodup fs && magicFalsy fs && toJSONSafe fs && encOkFields w reg fs
  | .vfunc (.classFn c) none =>
    (funcToJSON w (.classFn c)).isNone &&
    (match List.lookup c reg with
     | some d => d.name == c
     | none => false)
  | _ => false

/-- Encodability of a list of values. -/
def encOkList (w : World) (reg : Registry) : List Value → Bool
  | [] => true
  | x :: xs => encOk w reg x && encOkList w reg xs

/-- Encodability of the values of a property list. -/
def encOkFields (w : World) (reg : Registry) : List (String × Value) → Bool
  | [] => true
  | kv :: fs => encOk w reg kv.2 && encOkFields w reg fs
end

mutual
/-- The wire tree of an encodable value: plain data passes through and
a class object becomes the bare-type tag naming it. -/
def encJson : Value → Json
  | .vnull => .jnull
  | .vbool b => .jbool b
  | .vnum n => .jnum n
  | .vstr s => .jstr s
  | .varr xs _ => .jarr (encJsonList xs)
  | .vobj fs => .jobj (encJsonFields fs)
  | .vfunc (.classFn c) _ => .jobj [("$MAGIC$", .jobj [("cls", .jstr c)])]
  | _ => .jnull

/-- Wire trees of a list of encodable values. -/
def encJsonList : List Value → List Json
  | [] => []
  | x :: xs => encJson x :: encJsonList xs

/-- Wire trees of the fields of an encodable record. -/
def encJsonFields : List (String × Value) → List (String × Json)
  | [] => []
  | kv :: fs => (kv.1, encJson kv.2) :: encJsonFields fs
end

mutual
/-- Serialization fuel needed by an encodable value; a class object
expands to a two-level tag, hence three. -/
def encDepth : Value → Nat
  | .varr xs _ => encDepthList xs + 1
  | .vobj fs => encDepthFields fs + 1
  | .vfunc _ _ => 3
  | _ => 1

/-- Greatest fuel need of a list of values. -/
def encDepthList : List Value → Nat
  | [] => 0
  | x :: xs => max (encDepth x) (encDepthList xs)

/-- Greatest fuel need of the values of a property list. -/
def encDepthFields : List (String × Value) → Nat
  | [] => 0
  | kv :: fs => max (encDepth kv.2) (encDepthFields fs)
end

end Jsonf

namespace JsonfHeap

/-- Heap values of the decorator model: function references, object
references, and primitives. -/
inductive BVal where
  | fref (n : Nat)
  | oref (n : Nat)
  | bnum (n : Int)
  | bstr (s : String)
deriving DecidableEq, Repr

/-- The tag record attached by the referrable helper. -/
structure BMagic where
  cls : String
  ths : Option BVal := none
  key : String
deriving DecidableEq, Repr

/-- A function object's mutable state: its reserved tag property. -/
structure FuncCell where
  magic : Option BMagic := none
deriving DecidableEq, Repr

/-- An instance's mutable state: its class name and own properties. -/
structure ObjCell where
  cls : String
  props : List (String × BVal)
deriving DecidableEq, Repr

/-- The heap: function cells, object cells, and the next fresh id. -/
structure BHeap where
  funcs : List (Nat × FuncCell)
  objs : List (Nat × ObjCell)
  next : Nat
deriving DecidableEq, Repr

/-- Replace-or-append update of an association list. -/
def setEntry {α : Type} : List (Nat × α) → Nat → α → List (Nat × α)
  | [], k, v => [(k, v)]
  | (k0, v0) :: rest, k, v =>
    if k0 = k then (k, v) :: rest else (k0, v0) :: setEntry rest k v

/-- Replace-or-append update of a property list. -/
def setProp : List (String × BVal) → String → BVal → List (String × BVal)
  | [], k, v => [(k, v)]
  | (k0, v0) :: rest, k, v =>
    if k0 = k then (k, v) :: rest else (k0, v0) :: setProp rest k v

/-- Object.assign(f, { $MAGIC$: m }) on the function cell f. -/
def setFuncMagic (h : BHeap) (id : Nat) (m : BMagic) : BHeap :=
  { h with funcs := setEntry h.funcs id { magic := some m } }

/-- Object.defineProperty(o, k, { value := v }). -/
def setObjProp (h : BHeap) (id : Nat) (k : String) (v : BVal) : BHeap :=
  { h with objs :=
      match h.objs.lookup id with
      | some cell => setEntry h.objs id { cell with props := setProp cell.props k v }
      | none => h.objs }

/-- The referrable helper (src/mod.ts lines 22-34) as a heap transformer.
For a static member (context.static) it assigns { cls, key } onto the
member function itself, cls being the decorated class's name (passed
here as targetCls since the model keeps class objects out of the heap).
For an instance member it assigns { cls, ths := target, key } onto the
member, first making a fresh bound copy when bind is set. -/
def referrable (isStatic : Bool) (targetCls : String) (target : BVal)
    (key : String) (valF : Nat) (bind : Bool) (h : BHeap) : BVal × BHeap :=
  if isStatic then
    (BVal.fref valF, setFuncMagic h valF { cls := targetCls, key := key })
  else
    if bind then
      (BVal.fref h.next,
        { h with
          funcs := h.funcs ++ [(h.next, { magic := some { cls := targetCls, ths := some target, key := key } })]
          next := h.next + 1 })
    else
      (BVal.fref valF, setFuncMagic h valF { cls := targetCls, ths := some target, key := key })

/-- The initializer installed by the JSONF.referrable and JSONF.referBound
decorators for an instance member (src/mod.ts lines 44-60):
Object.defineProperty(this, name, { value: referrable(...) }). -/
def initMember (clsName : String) (key : String) (valF : Nat) (bind : Bool)
    (self : Nat) (h : BHeap) : BHeap :=
  setObjProp (referrable false clsName (BVal.oref self) key valF bind h).2 self key
    (referrable false clsName (BVal.oref self) key valF bind h).1

/-- A class with decorated instance members: each member has a name, the
heap id of the shared prototype method, and its bound flag. -/
structure BClass where
  name : String
  decorated : List (String × Nat × Bool)

/-- Construct an instance: allocate the object with the constructor's
own properties, then run the decorator initializers in order. -/
def construct (c : BClass) (payload : List (String × BVal)) (h : BHeap) : Nat × BHeap :=
  (h.next,
    c.decorated.foldl (fun hh d => initMember c.name d.1 d.2.1 d.2.2 h.next hh)
      { h with objs := h.objs ++ [(h.next, { cls := c.name, props := payload })], next := h.next + 1 })

/-- Read the tag property of a function cell. -/
def funcMagic (h : BHeap) (id : Nat) : Option BMagic :=
  (h.funcs.lookup id).bind (fun c => c.magic)

/-- Read an own property of an object cell. -/
def readMember (h : BHeap) (id : Nat) (k : String) : Option BVal :=
  (h.objs.lookup id).bind (fun c => c.props.lookup k)

end JsonfHeap

namespace Jsonf

/-- Every value looked up in a plain property list is itself plain. -/
theorem plainOk_of_lookup {fs : List (String × Value)} {k : String} {x : Value}
    (h : plainOkFields fs = true) (hl : fs.lookup k = some x) : plainOk x = true := by
  induction fs with
  | nil => simp [List.lookup] at hl
  | cons kv rest ih =>
    obtain ⟨k0, v0⟩ := kv
    rw [plainOkFields] at h
    simp only [Bool.and_eq_true] at h
    rw [List.lookup] at hl
    cases hk : (k == k0) with
    | true => rw [hk] at hl; cases hl; exact h.1
    | false => rw [hk] at hl; exact ih h.2 hl

/-- A plain value carries no truthy reserved tag property. -/
theorem truthy_prop_magic_of_plain {v : Value} (h : plainOk v = true) :
    truthy (prop v "$MAGIC$") = false := by
  cases v with
  | vnull => rfl
  | vundefined => rfl
  | vbool b => rfl
  | vnum n => rfl
  | vstr s => rfl
  | varr xs m =>
    cases m with
    | none => rfl
    | some m0 => simp [plainOk] at h
  | vobj fs =>
    rw [plainOk] at h
    simp only [Bool.and_eq_true] at h
    have h2 := h.1.2
    unfold magicFalsy at h2
    cases hl : fs.lookup "$MAGIC$" with
    | none => simp [prop, getPropOpt, hl, truthy]
    | some m0 =>
      rw [hl] at h2
      simp only [prop, getPropOpt, hl, Option.getD_some]
      simpa using h2
  | vinst c fs => simp [plainOk] at h
  | vfunc f m => simp [plainOk] at h
  | vbox p m => simp [plainOk] at h

/-- The reviver passes any node without a truthy tag property through. -/
theorem reviver_pass (w : World) (reg : Registry) {v : Value}
    (h : truthy (prop v "$MAGIC$") = false) : reviver w reg v = .ok v := by
  unfold reviver
  simp [h]

/-- The replacer passes plain values through unchanged. -/
theorem replacer_plain (w : World) {v : Value} (h : plainOk v = true) (fuel : Nat) :
    replacerF w (fuel + 1) v = some v := by
  have hm := truthy_prop_magic_of_plain h
  unfold replacerF
  rw [hm]
  cases v with
  | vnull => rfl
  | vundefined => rfl
  | vbool b => cases b <;> rfl
  | vnum n => by_cases hn : truthy (.vnum n) = true <;> simp [hn, isFunc, isNonPlainObj]
  | vstr s => by_cases hn : truthy (.vstr s) = true <;> simp [hn, isFunc, isNonPlainObj]
  | varr xs m => simp [truthy, isFunc, isNonPlainObj]
  | vobj fs => simp [truthy, isFunc, isNonPlainObj]
  | vinst c fs => simp [plainOk] at h
  | vfunc f m => simp [plainOk] at h
  | vbox p m => simp [plainOk] at h

/-- The toJSON pre-step leaves plain values unchanged. -/
theorem applyToJSON_plain (w : World) {v : Value} (h : plainOk v = true) :
    applyToJSON w v = v := by
  cases v with
  | vobj fs =>
    rw [plainOk] at h
    simp only [Bool.and_eq_true] at h
    unfold applyToJSON
    cases hl : fs.lookup "toJSON" with
    | none => simp [hl]
    | some x =>
      have hx : plainOk x = true := plainOk_of_lookup h.2 hl
      cases x <;> first
        | (simp [plainOk] at hx; done)
        | simp [hl]
  | vinst c fs => simp [plainOk] at h
  | vfunc f m => simp [plainOk] at h
  | vbox p m => simp [plainOk] at h
  | _ => rfl

/-- Depth is positive. -/
theorem depthV_pos (v : Value) : 1 ≤ depthV v := by
  cases v <;> simp [depthV]

mutual
/-- With enough fuel, serialization maps a plain value to its wire tree. -/
theorem serializeProp_plain (w : World) : ∀ (v : Value) (fuel : Nat),
    plainOk v = true → depthV v ≤ fuel → serializeProp w fuel v = some (plainJson v)
  | v, 0, _, hd => by have := depthV_pos v; omega
  | v, fuel + 1, h, hd => by
    unfold serializeProp
    rw [applyToJSON_plain w h, replacer_plain w h fuel]
    cases v with
    | vnull => rfl
    | vundefined => simp [plainOk] at h
    | vbool b => rfl
    | vnum n => rfl
    | vstr s => rfl
    | varr xs m =>
      cases m with
      | some m0 => simp [plainOk] at h
      | none =>
        rw [plainOk] at h
        have hd2 : depthList xs ≤ fuel := by rw [depthV] at hd; omega
        show some (Json.jarr (xs.map (fun x => (serializeProp w fuel x).getD Json.jnull))) = _
        rw [serializeList_plain w xs fuel h hd2]
        rfl
    | vobj fs =>
      rw [plainOk] at h
      simp only [Bool.and_eq_true] at h
      have hd2 : depthFields fs ≤ fuel := by rw [depthV] at hd; omega
      show some (Json.jobj (fs.filterMap (fun kv => (serializeProp w fuel kv.2).map (fun j => (kv.1, j))))) = _
      rw [serializeFields_plain w fs fuel h.2 hd2]
      rfl
    | vinst c fs => simp [plainOk] at h
    | vfunc f m => simp [plainOk] at h
    | vbox p m => simp [plainOk] at h

/-- Elementwise serialization of a plain list. -/
theorem serializeList_plain (w : World) : ∀ (xs : List Value) (fuel : Nat),
    plainOkList xs = true → depthList xs ≤ fuel →
    xs.map (fun x => (serializeProp w fuel x).getD .jnull) = plainJsonList xs
  | [], _, _, _ => rfl
  | x :: xs, fuel, h, hd => by
    rw [plainOkList] at h
    simp only [Bool.and_eq_true] at h
    rw [depthList] at hd
    simp only [List.map_cons]
    rw [serializeProp_plain w x fuel h.1 (le_trans (le_max_left _ _) hd)]
    rw [serializeList_plain w xs fuel h.2 (le_trans (le_max_right _ _) hd)]
    rfl

/-- Fieldwise serialization of a plain record: no field is dropped. -/
theorem serializeFields_plain (w : World) : ∀ (fs : List (String × Value)) (fuel : Nat),
    plainOkFields fs = true → depthFields fs ≤ fuel →
    fs.filterMap (fun kv => (serializeProp w fuel kv.2).map (fun j => (kv.1, j))) = plainJsonFields fs
  | [], _, _, _ => rfl
  | kv :: fs, fuel, h, hd => by
    rw [plainOkFields] at h
    simp only [Bool.and_eq_true] at h
    rw [depthFields] at hd
    simp only [List.filterMap_cons]
    rw [serializeProp_plain w kv.2 fuel h.1 (le_trans (le_max_left _ _) hd)]
    rw [serializeFields_plain w fs fuel h.2 (le_trans (le_max_right _ _) hd)]
    rfl
end

mutual
/-- Revival maps the wire tree of a plain value back to the value, with
any registry: no tag node is involved. -/
theorem parseVal_plain (w : World) (reg : Registry) : ∀ (v : Value),
    plainOk v = true → parseVal w reg (plainJson v) = .ok v
  | .vnull, _ => reviver_pass w reg (v := .vnull) rfl
  | .vundefined, h => by simp [plainOk] at h
  | .vbool b, _ => reviver_pass w reg (v := .vbool b) rfl
  | .vnum n, _ => reviver_pass w reg (v := .vnum n) rfl
  | .vstr s, _ => reviver_pass w reg (v := .vstr s) rfl
  | .varr xs m, h => by
    cases m with
    | some m0 => simp [plainOk] at h
    | none =>
      rw [plainOk] at h
      show parseVal w reg (.jarr (plainJsonList xs)) = _
      unfold parseVal
      rw [parseArr_plain w reg xs h]
      exact reviver_pass w reg (v := .varr xs none) rfl
  | .vobj fs, h => by
    have hm := truthy_prop_magic_of_plain h
    rw [plainOk] at h
    simp only [Bool.and_eq_true] at h
    show parseVal w reg (.jobj (plainJsonFields fs)) = _
    unfold parseVal
    rw [parseFields_plain w reg fs h.2]
    exact reviver_pass w reg hm
  | .vinst c fs, h => by simp [plainOk] at h
  | .vfunc f m, h => by simp [plainOk] at h
  | .vbox p m, h => by simp [plainOk] at h

/-- Revival of the wire trees of a plain list. -/
theorem parseArr_plain (w : World) (reg : Registry) : ∀ (xs : List Value),
    plainOkList xs = true → parseArr w reg (plainJsonList xs) = .ok xs
  | [], _ => rfl
  | x :: xs, h => by
    rw [plainOkList] at h
    simp only [Bool.and_eq_true] at h
    show parseArr w reg (plainJson x :: plainJsonList xs) = _
    unfold parseArr
    rw [parseVal_plain w reg x h.1, parseArr_plain w reg xs h.2]
    rfl

/-- Revival of the wire trees of a plain record's fields. -/
theorem parseFields_plain (w : World) (reg : Registry) : ∀ (fs : List (String × Value)),
    plainOkFields fs = true → parseFields w reg (plainJsonFields fs) = .ok fs
  | [], _ => rfl
  | kv :: fs, h => by
    rw [plainOkFields] at h
    simp only [Bool.and_eq_true] at h
    show parseFields w reg ((kv.1, plainJson kv.2) :: plainJsonFields fs) = _
    unfold parseFields
    rw [parseVal_plain w reg kv.2 h.1, parseFields_plain w reg fs h.2]
    rfl
end

/-- C1 (amended): for every JSON-representable plain value v — null,
numbers, strings, booleans, lists, and records containing only plain
members — in which no record binds the reserved key of the tag format
to a truthy value, decoding the encoding of v with an empty registry
returns v. -/
theorem claim1_plain_round_trip (w : World) (v : Value) (fuel : Nat)
    (hp : plainOk v = true) (hd : depthV v ≤ fuel) :
    ∃ j, stringify w fuel v = some j ∧ parse w [] j = .ok v := by
  refine ⟨plainJson v, ?_, parseVal_plain w [] v hp⟩
  unfold stringify
  obtain ⟨f, rfl⟩ : ∃ f, fuel = f + 1 := ⟨fuel - 1, by have := depthV_pos v; omega⟩
  rw [replacer_plain w hp f]
  exact serializeProp_plain w v (f + 1) hp hd

/-- Witness for C1: a concrete plain record round-trips. -/
theorem claim1_witness :
    ∃ j, stringify [] 4 (Value.vobj [("name", .vstr "a"), ("flags", .varr [.vnum 1, .vbool true, .vnull] none)]) = some j ∧
      parse [] [] j = .ok (Value.vobj [("name", .vstr "a"), ("flags", .varr [.vnum 1, .vbool true, .vnull] none)]) :=
  claim1_plain_round_trip [] _ 4 (by decide) (by decide)

/-- Counterexample for C1 as stated: the record binding the reserved key
to the plain number 1 consists only of plain members, yet decoding its
encoding with the empty registry fails with the unknown-class error
instead of returning the record. -/
theorem claim1_counterexample :
    stringify [] 3 (Value.vobj [("$MAGIC$", .vnum 1)]) = some (.jobj [("$MAGIC$", .jnum 1)]) ∧
    parse [] [] (.jobj [("$MAGIC$", .jnum 1)]) = .error (.unknownClass (.vnum 1)) ∧
    parse [] [] (.jobj [("$MAGIC$", .jnum 1)]) ≠ .ok (Value.vobj [("$MAGIC$", .vnum 1)]) := by
  have he : parse [] [] (Json.jobj [("$MAGIC$", Json.jnum 1)]) =
      Except.error (JErr.unknownClass (Value.vnum 1)) := rfl
  exact ⟨rfl, rfl, fun h => Except.noConfusion (he ▸ h)⟩

/-- The tag branch of the replacer: a truthy tag is emitted verbatim. -/
theorem replacer_tag (w : World) (v m : Value) (fuel : Nat)
    (hv : truthy v = true) (hm : prop v "$MAGIC$" = m) (ht : truthy m = true) :
    replacerF w (fuel + 1) v = some (.vobj [("$MAGIC$", m)]) := by
  unfold replacerF
  rw [hv, hm, ht]
  simp

/-- The pass-through branch of the replacer. -/
theorem replacer_pass (w : World) {v : Value} (fuel : Nat)
    (hm : truthy (prop v "$MAGIC$") = false)
    (hf : isFunc v = false) (hn : isNonPlainObj v = false) :
    replacerF w (fuel + 1) v = some v := by
  unfold replacerF
  cases ht : truthy v <;> simp [ht, hm, hf, hn]

/-- C7: whenever a node carries a truthy tag, the replacer emits the
single-key tag object holding exactly the carried tag, whatever the
node's runtime type: the tag is passed through, not re-derived. -/
theorem claim7_tag_passthrough (w : World) (v m : Value) (fuel : Nat)
    (hv : truthy v = true) (hm : prop v "$MAGIC$" = m) (ht : truthy m = true) :
    replacerF w (fuel + 1) v = some (.vobj [("$MAGIC$", m)]) :=
  replacer_tag w v m fuel hv hm ht

/-- Witness for C7: a function value carrying a tag naming a class other
than its own runtime identity is emitted with exactly that carried tag. -/
theorem claim7_witness :
    replacerF [] 1 (.vfunc (.extFn "f" 0) (some (.vobj [("cls", .vstr "X")]))) =
      some (.vobj [("$MAGIC$", .vobj [("cls", .vstr "X")])]) :=
  claim7_tag_passthrough [] _ _ 0 rfl rfl rfl

/-- C3 (amended): for a tag resolving in the registry, whenever the ths
field is present with a truthy value the decoder constructs an
instance — the class's fromJSON factory applied to ths when the class
has one, the constructor applied to ths otherwise — in both sub-branches
of the ths path: with no truthy key the node decodes to exactly that
freshly constructed instance, never to the bare type, and with a truthy
key the node decodes through that instance, returning its extracted
member (bound to the instance when callable) with the tag re-attached. -/
theorem claim3_instance_construction (w : World) (reg : Registry) (v m : Value) (cls : ClassDesc)
    (hv : truthy v = true) (hm : prop v "$MAGIC$" = m) (ht : truthy m = true)
    (hc : List.lookup (jsToKey (prop m "cls")) reg = some cls)
    (hths : truthy (prop m "ths") = true) :
    (truthy (prop m "key") = false →
      reviver w reg v = .ok (mkInstance cls (prop m "ths"))) ∧
    (truthy (prop m "key") = true →
      reviver w reg v =
        assignMagic
          (if isFunc (instGetMember w (mkInstance cls (prop m "ths")) (jsToKey (prop m "key"))) then
            bindTo (instGetMember w (mkInstance cls (prop m "ths")) (jsToKey (prop m "key")))
              (mkInstance cls (prop m "ths"))
          else instGetMember w (mkInstance cls (prop m "ths")) (jsToKey (prop m "key"))) m) ∧
    (∀ f, cls.fromJSON = some f → mkInstance cls (prop m "ths") = f (prop m "ths")) ∧
    (cls.fromJSON = none → mkInstance cls (prop m "ths") = .vinst cls.name (cls.construct (prop m "ths"))) := by
  refine ⟨?_, ?_, ?_, ?_⟩
  · intro hkey
    unfold reviver
    simp [hv, hm, ht, hc, hths, hkey]
  · intro hkey
    unfold reviver
    simp [hv, hm, ht, hc, hths, hkey]
  · intro f hf; unfold mkInstance; rw [hf]
  · intro hf; unfold mkInstance; rw [hf]

/-- Witness for C3: with a truthy ths and no key the tag decodes to the
constructed instance, and with a truthy key naming a non-function field
it decodes through the constructed instance to that member with the tag
attached. -/
theorem claim3_witness :
    truthy (prop (Value.vobj [("cls", .vstr "T"), ("ths", .vstr "x")]) "ths") = true ∧
    reviver [] [("T", descT)] (.vobj [("$MAGIC$", .vobj [("cls", .vstr "T"), ("ths", .vstr "x")])]) =
      .ok (.vinst "T" [("p", .vstr "x")]) ∧
    reviver [] [("T", descT)]
      (.vobj [("$MAGIC$", .vobj [("cls", .vstr "T"), ("ths", .vstr "x"), ("key", .vstr "p")])]) =
      .ok (.vbox (.bstr "x") (some (.vobj [("cls", .vstr "T"), ("ths", .vstr "x"), ("key", .vstr "p")]))) :=
  ⟨rfl,
   (claim3_instance_construction [] [("T", descT)]
     (.vobj [("$MAGIC$", .vobj [("cls", .vstr "T"), ("ths", .vstr "x")])])
     (.vobj [("cls", .vstr "T"), ("ths", .vstr "x")])
     descT rfl rfl rfl rfl rfl).1 rfl,
   (claim3_instance_construction [] [("T", descT)]
     (.vobj [("$MAGIC$", .vobj [("cls", .vstr "T"), ("ths", .vstr "x"), ("key", .vstr "p")])])
     (.vobj [("cls", .vstr "T"), ("ths", .vstr "x"), ("key", .vstr "p")])
     descT rfl rfl rfl rfl rfl).2.1 rfl⟩

/-- Counterexample for C3 as stated: a tag whose ths field is present
but falsy (the number 0) decodes to the bare class object rather than to
an instance constructed from ths. -/
theorem claim3_counterexample :
    getPropOpt (Value.vobj [("cls", .vstr "T"), ("ths", .vnum 0)]) "ths" = some (.vnum 0) ∧
    reviver [] [("T", descT)] (.vobj [("$MAGIC$", .vobj [("cls", .vstr "T"), ("ths", .vnum 0)])]) =
      .ok (classValue descT) ∧
    classValue descT ≠ mkInstance descT (.vnum 0) := by
  refine ⟨rfl, rfl, fun h => ?_⟩
  exact Value.noConfusion h

/-- Arrays are truthy. -/
theorem truthy_varr (xs : List Value) (m : Option Value) : truthy (.varr xs m) = true := rfl

/-- C5: for a tag without a truthy ths, with a truthy key naming a
callable static member of the registered class and with args present as
an array, the decoder invokes the member with the class as receiver and
the elements of args as positional arguments and returns the
invocation's result, not the member; when that result carries no tag
property, neither does the decoded value. -/
theorem claim5_static_invocation (w : World) (reg : Registry) (v m : Value) (cls : ClassDesc)
    (cn k : String) (pm : Option Value) (xs : List Value) (am : Option Value)
    (b : Value → List Value → Value)
    (hv : truthy v = true) (hm : prop v "$MAGIC$" = m) (ht : truthy m = true)
    (hc : List.lookup (jsToKey (prop m "cls")) reg = some cls)
    (hths : truthy (prop m "ths") = false)
    (hkey : truthy (prop m "key") = true)
    (hstat : cls.statics.lookup (jsToKey (prop m "key")) = some (.vfunc (.staticFn cn k) pm))
    (hargs : prop m "args" = .varr xs am)
    (hb : resolveCall w (.staticFn cn k) = some b) :
    reviver w reg v = .ok (b (classValue cls) xs) ∧
    (getPropOpt (b (classValue cls) xs) "$MAGIC$" = none →
      ∃ r, reviver w reg v = .ok r ∧ getPropOpt r "$MAGIC$" = none) := by
  have h1 : reviver w reg v = .ok (b (classValue cls) xs) := by
    unfold reviver
    simp [hv, hm, ht, hc, hths, hkey, staticGet, hstat, hargs, truthy_varr, applyMember, hb]
  exact ⟨h1, fun hno => ⟨_, h1, hno⟩⟩

/-- Witness for C5: the tag naming the static factory fun of Fancy with
args z decodes to the factory's return value, the string z itself. -/
theorem claim5_witness :
    reviver [("Fancy", descFancy)] [("Fancy", descFancy)]
      (.vobj [("$MAGIC$", .vobj [("cls", .vstr "Fancy"), ("key", .vstr "fun"), ("args", .varr [.vstr "z"] none)])]) =
      .ok (.vstr "z") :=
  (claim5_static_invocation [("Fancy", descFancy)] [("Fancy", descFancy)]
    (.vobj [("$MAGIC$", .vobj [("cls", .vstr "Fancy"), ("key", .vstr "fun"), ("args", .varr [.vstr "z"] none)])])
    (.vobj [("cls", .vstr "Fancy"), ("key", .vstr "fun"), ("args", .varr [.vstr "z"] none)])
    descFancy "Fancy" "fun"
    (some (.vobj [("cls", .vstr "Fancy"), ("key", .vstr "fun")]))
    [.vstr "z"] none (fun _ args => args.headD .vundefined)
    rfl rfl rfl rfl rfl rfl rfl rfl rfl).1

/-- C10: for a tag with truthy ths and truthy key whose extracted
instance member is not a function, the decoder returns Object.assign of
the extracted member with the original tag; a primitive member (number,
string, boolean) is therefore returned as a boxed wrapper object
carrying the tag, not as the primitive itself. -/
theorem claim10_nonfunction_member (w : World) (reg : Registry) (v m : Value) (cls : ClassDesc)
    (n : Int) (s : String) (b : Bool)
    (hv : truthy v = true) (hm : prop v "$MAGIC$" = m) (ht : truthy m = true)
    (hc : List.lookup (jsToKey (prop m "cls")) reg = some cls)
    (hths : truthy (prop m "ths") = true)
    (hkey : truthy (prop m "key") = true)
    (hp : isFunc (instGetMember w (mkInstance cls (prop m "ths")) (jsToKey (prop m "key"))) = false) :
    reviver w reg v = assignMagic (instGetMember w (mkInstance cls (prop m "ths")) (jsToKey (prop m "key"))) m ∧
    assignMagic (.vnum n) m = .ok (.vbox (.bnum n) (some m)) ∧
    assignMagic (.vstr s) m = .ok (.vbox (.bstr s) (some m)) ∧
    assignMagic (.vbool b) m = .ok (.vbox (.bbool b) (some m)) := by
  refine ⟨?_, rfl, rfl, rfl⟩
  unfold reviver
  simp [hv, hm, ht, hc, hths, hkey, hp]

/-- Witness for C10: the tag reaching the numeric field p of a
constructed T instance decodes to a boxed number carrying the tag. -/
theorem claim10_witness :
    reviver [] [("T", descT)]
      (.vobj [("$MAGIC$", .vobj [("cls", .vstr "T"), ("ths", .vnum 5), ("key", .vstr "p")])]) =
      .ok (.vbox (.bnum 5) (some (.vobj [("cls", .vstr "T"), ("ths", .vnum 5), ("key", .vstr "p")]))) :=
  (claim10_nonfunction_member [] [("T", descT)]
    (.vobj [("$MAGIC$", .vobj [("cls", .vstr "T"), ("ths", .vnum 5), ("key", .vstr "p")])])
    (.vobj [("cls", .vstr "T"), ("ths", .vnum 5), ("key", .vstr "p")])
    descT 5 "s" true
    rfl rfl rfl rfl rfl rfl rfl).1

/-- A string node serializes to its literal. -/
theorem serializeProp_str (w : World) (s : String) (fuel : Nat) :
    serializeProp w (fuel + 1) (.vstr s) = some (.jstr s) := by
  unfold serializeProp
  rw [show applyToJSON w (.vstr s) = .vstr s from rfl,
    replacer_pass w (v := .vstr s) fuel rfl rfl rfl]

/-- Every value looked up in an encodable property list is encodable. -/
theorem encOk_of_lookup {w : World} {reg : Registry} {fs : List (String × Value)}
    {k : String} {x : Value}
    (h : encOkFields w reg fs = true) (hl : fs.lookup k = some x) : encOk w reg x = true := by
  induction fs with
  | nil => simp [List.lookup] at hl
  | cons kv rest ih =>
    obtain ⟨k0, v0⟩ := kv
    rw [encOkFields] at h
    simp only [Bool.and_eq_true] at h
    rw [List.lookup] at hl
    cases hk : (k == k0) with
    | true => rw [hk] at hl; cases hl; exact h.1
    | false => rw [hk] at hl; exact ih h.2 hl

/-- An encodable value carries no truthy reserved tag property. -/
theorem truthy_prop_magic_of_enc {w : World} {reg : Registry} {v : Value}
    (h : encOk w reg v = true) : truthy (prop v "$MAGIC$") = false := by
  cases v with
  | vnull => rfl
  | vundefined => rfl
  | vbool b => rfl
  | vnum n => rfl
  | vstr s => rfl
  | varr xs m =>
    cases m with
    | none => rfl
    | some m0 => simp [encOk] at h
  | vobj fs =>
    rw [encOk] at h
    simp only [Bool.and_eq_true] at h
    have h2 := h.1.1.2
    unfold magicFalsy at h2
    cases hl : fs.lookup "$MAGIC$" with
    | none => simp [prop, getPropOpt, hl, truthy]
    | some m0 =>
      rw [hl] at h2
      simp only [prop, getPropOpt, hl, Option.getD_some]
      simpa using h2
  | vinst c fs => simp [encOk] at h
  | vfunc fid mg =>
    cases fid with
    | classFn c =>
      cases mg with
      | none => rfl
      | some m0 => simp [encOk] at h
    | protoMethod c k => simp [encOk] at h
    | staticFn c k => simp [encOk] at h
    | boundOf f r => simp [encOk] at h
    | extFn nm i => simp [encOk] at h
  | vbox p m => simp [encOk] at h

/-- The toJSON pre-step leaves encodable values unchanged. -/
theorem applyToJSON_enc (w : World) {reg : Registry} {v : Value}
    (h : encOk w reg v = true) : applyToJSON w v = v := by
  cases v with
  | vobj fs =>
    rw [encOk] at h
    simp only [Bool.and_eq_true] at h
    have hts := h.1.2
    unfold toJSONSafe at hts
    unfold applyToJSON
    cases hl : fs.lookup "toJSON" with
    | none => simp [hl]
    | some x =>
      rw [hl] at hts
      cases x <;> first
        | (simp [isFunc] at hts; done)
        | simp [hl]
  | vfunc fid mg =>
    cases fid with
    | classFn c =>
      cases mg with
      | some m0 => simp [encOk] at h
      | none =>
        rw [encOk] at h
        simp only [Bool.and_eq_true] at h
        have hfn : funcToJSON w (.classFn c) = none := by
          simpa [Option.isNone_iff_eq_none] using h.1
        show (funcToJSON w (.classFn c)).getD (.vfunc (.classFn c) none) =
          Value.vfunc (.classFn c) none
        simp [hfn]
    | protoMethod c k => simp [encOk] at h
    | staticFn c k => simp [encOk] at h
    | boundOf f r => simp [encOk] at h
    | extFn nm i => simp [encOk] at h
  | vinst c fs => simp [encOk] at h
  | vbox p m => simp [encOk] at h
  | _ => rfl

/-- Serialization fuel need is positive. -/
theorem encDepth_pos (v : Value) : 1 ≤ encDepth v := by
  cases v <;> simp [encDepth]

mutual
/-- With enough fuel, serialization maps an encodable value to its wire
tree: plain data passes through and registered class objects become
bare-type tags. -/
theorem serializeProp_enc (w : World) (reg : Registry) : ∀ (v : Value) (fuel : Nat),
    encOk w reg v = true → encDepth v ≤ fuel → serializeProp w fuel v = some (encJson v)
  | v, 0, _, hd => by have := encDepth_pos v; omega
  | v, fuel + 1, h, hd => by
    cases v with
    | vnull => rfl
    | vundefined => simp [encOk] at h
    | vbool b => cases b <;> rfl
    | vnum n =>
      unfold serializeProp
      rw [show applyToJSON w (.vnum n) = .vnum n from rfl,
        replacer_pass w (v := .vnum n) fuel rfl rfl rfl]
      rfl
    | vstr s => exact serializeProp_str w s fuel
    | varr xs m =>
      cases m with
      | some m0 => simp [encOk] at h
      | none =>
        rw [encOk] at h
        have hd2 : encDepthList xs ≤ fuel := by rw [encDepth] at hd; omega
        unfold serializeProp
        rw [show applyToJSON w (.varr xs none) = .varr xs none from rfl,
          replacer_pass w (v := .varr xs none) fuel rfl rfl rfl]
        show some (Json.jarr (xs.map (fun x => (serializeProp w fuel x).getD Json.jnull))) = _
        rw [serializeList_enc w reg xs fuel h hd2]
        rfl
    | vobj fs =>
      have ha : applyToJSON w (.vobj fs) = .vobj fs := applyToJSON_enc w h
      have hm : truthy (prop (.vobj fs) "$MAGIC$") = false := truthy_prop_magic_of_enc h
      rw [encOk] at h
      simp only [Bool.and_eq_true] at h
      have hd2 : encDepthFields fs ≤ fuel := by rw [encDepth] at hd; omega
      unfold serializeProp
      rw [ha, replacer_pass w (v := .vobj fs) fuel hm rfl rfl]
      show some (Json.jobj (fs.filterMap (fun kv => (serializeProp w fuel kv.2).map (fun j => (kv.1, j))))) = _
      rw [serializeFields_enc w reg fs fuel h.2 hd2]
      rfl
    | vinst c fs => simp [encOk] at h
    | vbox p m => simp [encOk] at h
    | vfunc fid mg =>
      cases fid with
      | classFn c =>
        cases mg with
        | some m0 => simp [encOk] at h
        | none =>
          rw [encOk] at h
          simp only [Bool.and_eq_true] at h
          have hfn : funcToJSON w (.classFn c) = none := by
            simpa [Option.isNone_iff_eq_none] using h.1
          obtain ⟨f3, hf3⟩ : ∃ f3, fuel + 1 = f3 + 1 + 1 + 1 := by
            rw [encDepth] at hd; exact ⟨fuel - 2, by omega⟩
          rw [hf3]
          have ha : applyToJSON w (.vfunc (.classFn c) none) = .vfunc (.classFn c) none := by
            show (funcToJSON w (.classFn c)).getD (.vfunc (.classFn c) none) =
              Value.vfunc (.classFn c) none
            simp [hfn]
          have hrep : replacerF w (f3 + 1 + 1 + 1) (.vfunc (.classFn c) none) =
              some (.vobj [("$MAGIC$", .vobj [("cls", .vstr c)])]) := by
            unfold replacerF
            simp [truthy, prop, getPropOpt, isFunc, hfn, funcName]
          have hrec : serializeProp w (f3 + 1 + 1) (.vobj [("cls", .vstr c)]) =
              some (.jobj [("cls", .jstr c)]) := by
            unfold serializeProp
            rw [show applyToJSON w (.vobj [("cls", .vstr c)]) = .vobj [("cls", .vstr c)] from rfl,
              replacer_pass w (v := .vobj [("cls", .vstr c)]) (f3 + 1) rfl rfl rfl]
            simp [serializeProp_str w c f3]
          unfold serializeProp
          rw [ha, hrep]
          simp [hrec]
          rfl
      | protoMethod c2 k2 => simp [encOk] at h
      | staticFn c2 k2 => simp [encOk] at h
      | boundOf f2 r2 => simp [encOk] at h
      | extFn nm2 i2 => simp [encOk] at h

/-- Elementwise serialization of an encodable list. -/
theorem serializeList_enc (w : World) (reg : Registry) : ∀ (xs : List Value) (fuel : Nat),
    encOkList w reg xs = true → encDepthList xs ≤ fuel →
    xs.map (fun x => (serializeProp w fuel x).getD .jnull) = encJsonList xs
  | [], _, _, _ => rfl
  | x :: xs, fuel, h, hd => by
    rw [encOkList] at h
    simp only [Bool.and_eq_true] at h
    rw [encDepthList] at hd
    simp only [List.map_cons]
    rw [serializeProp_enc w reg x fuel h.1 (le_trans (le_max_left _ _) hd)]
    rw [serializeList_enc w reg xs fuel h.2 (le_trans (le_max_right _ _) hd)]
    rfl

/-- Fieldwise serialization of an encodable record: no field is dropped. -/
theorem serializeFields_enc (w : World) (reg : Registry) : ∀ (fs : List (String × Value)) (fuel : Nat),
    encOkFields w reg fs = true → encDepthFields fs ≤ fuel →
    fs.filterMap (fun kv => (serializeProp w fuel kv.2).map (fun j => (kv.1, j))) = encJsonFields fs
  | [], _, _, _ => rfl
  | kv :: fs, fuel, h, hd => by
    rw [encOkFields] at h
    simp only [Bool.and_eq_true] at h
    rw [encDepthFields] at hd
    simp only [List.filterMap_cons]
    rw [serializeProp_enc w reg kv.2 fuel h.1 (le_trans (le_max_left _ _) hd)]
    rw [serializeFields_enc w reg fs fuel h.2 (le_trans (le_max_right _ _) hd)]
    rfl
end

mutual
/-- Revival maps the wire tree of an encodable value back to the value:
plain data passes through and a bare-type tag resolves to the same
registered class object. -/
theorem parseVal_enc (w : World) (reg : Registry) : ∀ (v : Value),
    encOk w reg v = true → parseVal w reg (encJson v) = .ok v
  | .vnull, _ => reviver_pass w reg (v := .vnull) rfl
  | .vundefined, h => by simp [encOk] at h
  | .vbool b, _ => reviver_pass w reg (v := .vbool b) rfl
  | .vnum n, _ => reviver_pass w reg (v := .vnum n) rfl
  | .vstr s, _ => reviver_pass w reg (v := .vstr s) rfl
  | .varr xs m, h => by
    cases m with
    | some m0 => simp [encOk] at h
    | none =>
      rw [encOk] at h
      show parseVal w reg (.jarr (encJsonList xs)) = _
      unfold parseVal
      rw [parseArr_enc w reg xs h]
      exact reviver_pass w reg (v := .varr xs none) rfl
  | .vobj fs, h => by
    have hm := truthy_prop_magic_of_enc h
    rw [encOk] at h
    simp only [Bool.and_eq_true] at h
    show parseVal w reg (.jobj (encJsonFields fs)) = _
    unfold parseVal
    rw [parseFields_enc w reg fs h.2]
    exact reviver_pass w reg hm
  | .vinst c fs, h => by simp [encOk] at h
  | .vbox p m, h => by simp [encOk] at h
  | .vfunc fid mg, h => by
    cases fid with
    | classFn c =>
      cases mg with
      | some m0 => simp [encOk] at h
      | none =>
        rw [encOk] at h
        simp only [Bool.and_eq_true] at h
        cases hr : List.lookup c reg with
        | none => rw [hr] at h; exact absurd h.2 (by simp)
        | some d =>
          have hdn : d.name = c := by
            have h2 := h.2
            rw [hr] at h2
            simpa using h2
          show parseVal w reg (.jobj [("$MAGIC$", .jobj [("cls", .jstr c)])]) = _
          have hclsP : parseVal w reg (.jstr c) = .ok (.vstr c) :=
            reviver_pass w reg (v := .vstr c) rfl
          have hrecP : parseVal w reg (.jobj [("cls", .jstr c)]) = .ok (.vobj [("cls", .vstr c)]) := by
            show (do reviver w reg (.vobj (← parseFields w reg [("cls", .jstr c)]))) = _
            simp only [parseFields]
            rw [hclsP]
            exact reviver_pass w reg (v := .vobj [("cls", .vstr c)]) rfl
          show (do reviver w reg (.vobj (← parseFields w reg [("$MAGIC$", .jobj [("cls", .jstr c)])]))) = _
          simp only [parseFields]
          rw [hrecP]
          show reviver w reg (.vobj [("$MAGIC$", .vobj [("cls", .vstr c)])]) = _
          unfold reviver
          have e1 : prop (Value.vobj [("$MAGIC$", Value.vobj [("cls", .vstr c)])]) "$MAGIC$" =
              Value.vobj [("cls", .vstr c)] := rfl
          have e2 : jsToKey (prop (Value.vobj [("cls", .vstr c)]) "cls") = c := rfl
          have e3 : truthy (prop (Value.vobj [("cls", .vstr c)]) "ths") = false := rfl
          have e4 : truthy (prop (Value.vobj [("cls", .vstr c)]) "key") = false := rfl
          have t0 : truthy (Value.vobj [("$MAGIC$", Value.vobj [("cls", .vstr c)])]) = true := rfl
          have t1 : truthy (Value.vobj [("cls", .vstr c)]) = true := rfl
          simp only [e1, e2, e3, e4, t0, t1, hr]
          simp [classValue, hdn]
    | protoMethod c2 k2 => simp [encOk] at h
    | staticFn c2 k2 => simp [encOk] at h
    | boundOf f2 r2 => simp [encOk] at h
    | extFn nm2 i2 => simp [encOk] at h

/-- Revival of the wire trees of an encodable list. -/
theorem parseArr_enc (w : World) (reg : Registry) : ∀ (xs : List Value),
    encOkList w reg xs = true → parseArr w reg (encJsonList xs) = .ok xs
  | [], _ => rfl
  | x :: xs, h => by
    rw [encOkList] at h
    simp only [Bool.and_eq_true] at h
    show parseArr w reg (encJson x :: encJsonList xs) = _
    unfold parseArr
    rw [parseVal_enc w reg x h.1, parseArr_enc w reg xs h.2]
    rfl

/-- Revival of the wire trees of an encodable record's fields. -/
theorem parseFields_enc (w : World) (reg : Registry) : ∀ (fs : List (String × Value)),
    encOkFields w reg fs = true → parseFields w reg (encJsonFields fs) = .ok fs
  | [], _ => rfl
  | kv :: fs, h => by
    rw [encOkFields] at h
    simp only [Bool.and_eq_true] at h
    show parseFields w reg ((kv.1, encJson kv.2) :: encJsonFields fs) = _
    unfold parseFields
    rw [parseVal_enc w reg kv.2 h.1, parseFields_enc w reg fs h.2]
    rfl
end

/-- C4 (amended): for a registered class and a payload whose encoded
projection (the class's toJSON result, else the field spread) is a
truthy value, decoding the encoding of the constructed instance yields
a value equal to that instance — including when the projection/factory
pair is not the identity.  The hypotheses render the claim's standing
assumptions explicit: the projection is an encodable value (plain data
with references to registered classes, as in the repository's own
test of new Fable with payload data Fable), the class's factory or
constructor maps the projection back to the instance (the
projection/factory pair round-trips, which deep equality presupposes),
and the constructed fields do not use the reserved tag key, which the
wire format reserves from application data. -/
theorem claim4_instance_round_trip (w : World) (reg : Registry) (nm : String)
    (p ths : Value) (flds : List (String × Value)) (cls : ClassDesc) (fuel : Nat)
    (hname : cls.name = nm)
    (hflds : cls.construct p = flds)
    (hreg : List.lookup nm reg = some cls)
    (hna : nm ≠ "Array") (hno : nm ≠ "Object")
    (hmag : flds.lookup "$MAGIC$" = none)
    (hproj : instProject w nm flds = ths)
    (hth : truthy ths = true)
    (henc : encOk w reg ths = true)
    (hinv : mkInstance cls ths = .vinst nm flds) :
    ∃ j, stringify w (fuel + encDepth ths + 2) (.vinst nm flds) = some j ∧
      parse w reg j = .ok (.vinst nm flds) := by
  obtain ⟨f2, hF⟩ : ∃ f2, fuel + encDepth ths + 2 = f2 + 1 + 1 + 1 :=
    ⟨fuel + encDepth ths - 1, by have := encDepth_pos ths; omega⟩
  have hdep : encDepth ths ≤ f2 + 1 := by omega
  refine ⟨.jobj [("$MAGIC$", .jobj [("cls", .jstr nm), ("ths", encJson ths)])], ?_, ?_⟩
  · rw [hF]
    unfold stringify
    have htv : truthy (Value.vinst nm flds) = true := rfl
    have hmagv : truthy (prop (Value.vinst nm flds) "$MAGIC$") = false := by
      simp [prop, getPropOpt, hmag, truthy]
    have hnp : isNonPlainObj (Value.vinst nm flds) = true := by
      simp [isNonPlainObj, hna, hno]
    have h1 : replacerF w (f2 + 1 + 1 + 1) (.vinst nm flds) =
        some (.vobj [("$MAGIC$", .vobj [("cls", .vstr nm), ("ths", ths)])]) := by
      unfold replacerF
      rw [htv, hmagv]
      simp only [isFunc, hnp, Bool.false_eq_true, if_false, if_true]
      simp [typedProject, ctorName, hproj]
    rw [h1]
    show serializeProp w (f2 + 1 + 1 + 1)
        (Value.vobj [("$MAGIC$", Value.vobj [("cls", Value.vstr nm), ("ths", ths)])]) =
      some (Json.jobj [("$MAGIC$", Json.jobj [("cls", Json.jstr nm), ("ths", encJson ths)])])
    have hrec : serializeProp w (f2 + 1 + 1) (.vobj [("cls", .vstr nm), ("ths", ths)]) =
        some (.jobj [("cls", .jstr nm), ("ths", encJson ths)]) := by
      unfold serializeProp
      have ha : applyToJSON w (.vobj [("cls", .vstr nm), ("ths", ths)]) =
          .vobj [("cls", .vstr nm), ("ths", ths)] := rfl
      rw [ha, replacer_pass w (v := .vobj [("cls", .vstr nm), ("ths", ths)]) (f2 + 1) rfl rfl rfl]
      have hs1 : serializeProp w (f2 + 1) (.vstr nm) = some (.jstr nm) := by
        unfold serializeProp
        rw [show applyToJSON w (.vstr nm) = .vstr nm from rfl,
          replacer_pass w (v := .vstr nm) f2 rfl rfl rfl]
      have hs2 : serializeProp w (f2 + 1) ths = some (encJson ths) :=
        serializeProp_enc w reg ths (f2 + 1) henc hdep
      simp [hs1, hs2]
    have ht1 : applyToJSON w (.vobj [("$MAGIC$", .vobj [("cls", .vstr nm), ("ths", ths)])]) =
        .vobj [("$MAGIC$", .vobj [("cls", .vstr nm), ("ths", ths)])] := rfl
    unfold serializeProp
    rw [ht1, replacer_tag w (.vobj [("$MAGIC$", .vobj [("cls", .vstr nm), ("ths", ths)])])
      (.vobj [("cls", .vstr nm), ("ths", ths)]) (f2 + 1 + 1) rfl rfl rfl]
    simp [hrec]
  · have hcls : parseVal w reg (.jstr nm) = .ok (.vstr nm) :=
      reviver_pass w reg (v := .vstr nm) rfl
    have hthsP : parseVal w reg (encJson ths) = .ok ths :=
      parseVal_enc w reg ths henc
    have hrecP : parseVal w reg (.jobj [("cls", .jstr nm), ("ths", encJson ths)]) =
        .ok (.vobj [("cls", .vstr nm), ("ths", ths)]) := by
      show (do reviver w reg (.vobj (← parseFields w reg [("cls", .jstr nm), ("ths", encJson ths)]))) = _
      simp only [parseFields]
      rw [hcls, hthsP]
      exact reviver_pass w reg (v := .vobj [("cls", .vstr nm), ("ths", ths)]) rfl
    show (do reviver w reg (.vobj (← parseFields w reg [("$MAGIC$", .jobj [("cls", .jstr nm), ("ths", encJson ths)])]))) = _
    simp only [parseFields]
    rw [hrecP]
    show reviver w reg (.vobj [("$MAGIC$", .vobj [("cls", .vstr nm), ("ths", ths)])]) = _
    unfold reviver
    have e1 : prop (Value.vobj [("$MAGIC$", Value.vobj [("cls", .vstr nm), ("ths", ths)])]) "$MAGIC$" =
        Value.vobj [("cls", .vstr nm), ("ths", ths)] := rfl
    have e2 : jsToKey (prop (Value.vobj [("cls", .vstr nm), ("ths", ths)]) "cls") = nm := rfl
    have e3 : prop (Value.vobj [("cls", .vstr nm), ("ths", ths)]) "ths" = ths := rfl
    have e4 : truthy (prop (Value.vobj [("cls", .vstr nm), ("ths", ths)]) "key") = false := rfl
    have t0 : truthy (Value.vobj [("$MAGIC$", Value.vobj [("cls", .vstr nm), ("ths", ths)])]) = true := rfl
    have t1 : truthy (Value.vobj [("cls", .vstr nm), ("ths", ths)]) = true := rfl
    simp only [e1, e2, e3, e4, t0, t1, hreg, hth]
    simp [hinv]

/-- Witness for C4: a Fable instance whose payload holds a reference to
the Fable class itself — the repository's own test case — round-trips
through encode and decode with the non-identity projection/factory
pair. -/
theorem claim4_witness :
    ∃ j, stringify [("Fable", descFable)] 6
        (.vinst "Fable" [("json", .vobj [("data", .vfunc (.classFn "Fable") none)])]) = some j ∧
      parse [("Fable", descFable)] [("Fable", descFable)] j =
        .ok (.vinst "Fable" [("json", .vobj [("data", .vfunc (.classFn "Fable") none)])]) :=
  claim4_instance_round_trip [("Fable", descFable)] [("Fable", descFable)] "Fable"
    (.vobj [("data", .vfunc (.classFn "Fable") none)])
    (.vobj [("data", .vfunc (.classFn "Fable") none)])
    [("json", .vobj [("data", .vfunc (.classFn "Fable") none)])] descFable 0
    rfl rfl rfl (by decide) (by decide) rfl rfl rfl (by decide) rfl

/-- Counterexample for C4 as stated: for the registered class Fable and
the payload 0, the projected payload is the falsy number 0, so decoding
the encoding of the instance yields the bare class object, not a value
equal to the instance. -/
theorem claim4_counterexample :
    stringify [("Fable", descFable)] 5 (.vinst "Fable" [("json", .vnum 0)]) =
      some (.jobj [("$MAGIC$", .jobj [("cls", .jstr "Fable"), ("ths", .jnum 0)])]) ∧
    parse [("Fable", descFable)] [("Fable", descFable)]
      (.jobj [("$MAGIC$", .jobj [("cls", .jstr "Fable"), ("ths", .jnum 0)])]) =
      .ok (.vfunc (.classFn "Fable") none) ∧
    Value.vfunc (.classFn "Fable") none ≠ .vinst "Fable" [("json", .vnum 0)] :=
  ⟨rfl, rfl, fun h => Value.noConfusion h⟩

/-- C6: marking a static member (the static branch of the referrable
helper) keeps the underlying member itself, changing only its tag
property, and marking twice produces the same value; with a registry
whose class stores the marked member as its static, decoding the
encoding of the marked member returns exactly that member, so two
independently produced and decoded unbound references to the same
static member are equal to each other and to the original member. -/
theorem claim6_unbound_static_refs (w : World) (reg : Registry) (cls : ClassDesc)
    (cn k : String) (fid : FuncId) (vm : Option Value) (fuel : Nat)
    (hk : truthy (.vstr k) = true)
    (hreg : List.lookup cn reg = some cls)
    (hstat : cls.statics.lookup k = some (referrableStatic cn k (.vfunc fid vm))) :
    referrableStatic cn k (.vfunc fid vm) =
      .vfunc fid (some (.vobj [("cls", .vstr cn), ("key", .vstr k)])) ∧
    referrableStatic cn k (referrableStatic cn k (.vfunc fid vm)) =
      referrableStatic cn k (.vfunc fid vm) ∧
    ∃ j, stringify w (fuel + 3) (referrableStatic cn k (.vfunc fid vm)) = some j ∧
      parse w reg j = .ok (referrableStatic cn k (.vfunc fid vm)) := by
  obtain ⟨f, hF⟩ : ∃ f, fuel + 3 = f + 1 + 1 + 1 := ⟨fuel, by omega⟩
  refine ⟨rfl, rfl, .jobj [("$MAGIC$", .jobj [("cls", .jstr cn), ("key", .jstr k)])], ?_, ?_⟩
  · rw [hF]
    unfold stringify
    rw [show referrableStatic cn k (.vfunc fid vm) =
        Value.vfunc fid (some (.vobj [("cls", .vstr cn), ("key", .vstr k)])) from rfl]
    rw [replacer_tag w (.vfunc fid (some (.vobj [("cls", .vstr cn), ("key", .vstr k)])))
        (.vobj [("cls", .vstr cn), ("key", .vstr k)]) (f + 1 + 1) rfl rfl rfl]
    show serializeProp w (f + 1 + 1 + 1)
        (Value.vobj [("$MAGIC$", Value.vobj [("cls", Value.vstr cn), ("key", Value.vstr k)])]) =
      some (Json.jobj [("$MAGIC$", Json.jobj [("cls", Json.jstr cn), ("key", Json.jstr k)])])
    have hrec : serializeProp w (f + 1 + 1) (.vobj [("cls", .vstr cn), ("key", .vstr k)]) =
        some (.jobj [("cls", .jstr cn), ("key", .jstr k)]) := by
      unfold serializeProp
      rw [show applyToJSON w (.vobj [("cls", .vstr cn), ("key", .vstr k)]) =
          .vobj [("cls", .vstr cn), ("key", .vstr k)] from rfl,
        replacer_pass w (v := .vobj [("cls", .vstr cn), ("key", .vstr k)]) (f + 1) rfl rfl rfl]
      have hs1 : serializeProp w (f + 1) (.vstr cn) = some (.jstr cn) := by
        unfold serializeProp
        rw [show applyToJSON w (.vstr cn) = .vstr cn from rfl,
          replacer_pass w (v := .vstr cn) f rfl rfl rfl]
      have hs2 : serializeProp w (f + 1) (.vstr k) = some (.jstr k) := by
        unfold serializeProp
        rw [show applyToJSON w (.vstr k) = .vstr k from rfl,
          replacer_pass w (v := .vstr k) f rfl rfl rfl]
      simp [hs1, hs2]
    unfold serializeProp
    rw [show applyToJSON w (.vobj [("$MAGIC$", .vobj [("cls", .vstr cn), ("key", .vstr k)])]) =
        .vobj [("$MAGIC$", .vobj [("cls", .vstr cn), ("key", .vstr k)])] from rfl,
      replacer_tag w (.vobj [("$MAGIC$", .vobj [("cls", .vstr cn), ("key", .vstr k)])])
        (.vobj [("cls", .vstr cn), ("key", .vstr k)]) (f + 1 + 1) rfl rfl rfl]
    simp [hrec]
  · have hclsP : parseVal w reg (.jstr cn) = .ok (.vstr cn) :=
      reviver_pass w reg (v := .vstr cn) rfl
    have hkeyP : parseVal w reg (.jstr k) = .ok (.vstr k) :=
      reviver_pass w reg (v := .vstr k) rfl
    have hrecP : parseVal w reg (.jobj [("cls", .jstr cn), ("key", .jstr k)]) =
        .ok (.vobj [("cls", .vstr cn), ("key", .vstr k)]) := by
      show (do reviver w reg (.vobj (← parseFields w reg [("cls", .jstr cn), ("key", .jstr k)]))) = _
      simp only [parseFields]
      rw [hclsP, hkeyP]
      exact reviver_pass w reg (v := .vobj [("cls", .vstr cn), ("key", .vstr k)]) rfl
    show (do reviver w reg (.vobj (← parseFields w reg
        [("$MAGIC$", .jobj [("cls", .jstr cn), ("key", .jstr k)])]))) = _
    simp only [parseFields]
    rw [hrecP]
    show reviver w reg (.vobj [("$MAGIC$", .vobj [("cls", .vstr cn), ("key", .vstr k)])]) = _
    unfold reviver
    have e1 : prop (Value.vobj [("$MAGIC$", Value.vobj [("cls", .vstr cn), ("key", .vstr k)])]) "$MAGIC$" =
        Value.vobj [("cls", .vstr cn), ("key", .vstr k)] := rfl
    have e2 : jsToKey (prop (Value.vobj [("cls", .vstr cn), ("key", .vstr k)]) "cls") = cn := rfl
    have e3 : truthy (prop (Value.vobj [("cls", .vstr cn), ("key", .vstr k)]) "ths") = false := rfl
    have e4 : prop (Value.vobj [("cls", .vstr cn), ("key", .vstr k)]) "key" = .vstr k := rfl
    have e5 : truthy (prop (Value.vobj [("cls", .vstr cn), ("key", .vstr k)]) "args") = false := rfl
    have e6 : jsToKey (Value.vstr k) = k := rfl
    have t0 : truthy (Value.vobj [("$MAGIC$", Value.vobj [("cls", .vstr cn), ("key", .vstr k)])]) = true := rfl
    have t1 : truthy (Value.vobj [("cls", .vstr cn), ("key", .vstr k)]) = true := rfl
    simp only [e1, e2, e3, e4, e5, e6, t0, t1, hreg, hk, staticGet, hstat]
    simp

/-- Witness for C6: the decorated static fun of Fancy, whose stored
static member is the marked function itself, encodes to the bare tag
and decodes back to the very same member. -/
theorem claim6_witness :
    ∃ j, stringify [("Fancy", descFancy)] 3
        (referrableStatic "Fancy" "fun" (.vfunc (.staticFn "Fancy" "fun") none)) = some j ∧
      parse [("Fancy", descFancy)] [("Fancy", descFancy)] j =
        .ok (referrableStatic "Fancy" "fun" (.vfunc (.staticFn "Fancy" "fun") none)) :=
  (claim6_unbound_static_refs [("Fancy", descFancy)] [("Fancy", descFancy)] descFancy
    "Fancy" "fun" (.staticFn "Fancy" "fun") none 0 rfl rfl rfl).2.2

/-- Revival of an object node, in bind form. -/
theorem parseVal_jobj (w : World) (reg : Registry) (fs : List (String × Json)) :
    parseVal w reg (.jobj fs) =
      Except.bind (parseFields w reg fs) (fun fs2 => reviver w reg (.vobj fs2)) := rfl

/-- Revival of an array node, in bind form. -/
theorem parseVal_jarr (w : World) (reg : Registry) (xs : List Json) :
    parseVal w reg (.jarr xs) =
      Except.bind (parseArr w reg xs) (fun vs => reviver w reg (.varr vs none)) := rfl

/-- Inversion of a successful field revival on a cons cell. -/
theorem parseFields_cons_ok {w : World} {reg : Registry} {k0 : String} {j0 : Json}
    {fs : List (String × Json)} {fs2 : List (String × Value)}
    (h : parseFields w reg ((k0, j0) :: fs) = .ok fs2) :
    ∃ v0 rest, parseVal w reg j0 = .ok v0 ∧ parseFields w reg fs = .ok rest ∧
      fs2 = (k0, v0) :: rest := by
  unfold parseFields at h
  cases hv : parseVal w reg j0 with
  | error e => rw [hv] at h; exact absurd h (by simp [Bind.bind, Except.bind])
  | ok v0 =>
    rw [hv] at h
    cases hr : parseFields w reg fs with
    | error e => rw [hr] at h; exact absurd h (by simp [Bind.bind, Except.bind])
    | ok rest =>
      rw [hr] at h
      simp only [Bind.bind, Except.bind, pure, Except.pure, Except.ok.injEq] at h
      exact ⟨v0, rest, rfl, rfl, h.symm⟩

/-- A successful field revival keeps keys and revives values in place. -/
theorem parseFields_keys (w : World) (reg : Registry) :
    ∀ (fs : List (String × Json)) (fs2 : List (String × Value)),
      parseFields w reg fs = .ok fs2 →
      (∀ k, fs.lookup k = none → fs2.lookup k = none) ∧
      (∀ k j, fs.lookup k = some j → ∃ v, fs2.lookup k = some v ∧ parseVal w reg j = .ok v) := by
  intro fs
  induction fs with
  | nil =>
    intro fs2 h
    have h2 : fs2 = [] := by
      unfold parseFields at h
      simpa [pure, Except.pure] using h.symm
    subst h2
    exact ⟨fun k _ => rfl, fun k j hj => by simp [List.lookup] at hj⟩
  | cons kv rest ih =>
    obtain ⟨k0, j0⟩ := kv
    intro fs2 h
    obtain ⟨v0, rest2, hv0, hrest, hfs2⟩ := parseFields_cons_ok h
    subst hfs2
    obtain ⟨ih1, ih2⟩ := ih rest2 hrest
    constructor
    · intro k hk
      rw [List.lookup] at hk ⊢
      cases he : (k == k0) with
      | true => rw [he] at hk; exact absurd hk (by simp)
      | false => rw [he] at hk; exact ih1 k hk
    · intro k j hj
      rw [List.lookup] at hj ⊢
      cases he : (k == k0) with
      | true =>
        rw [he] at hj
        cases hj
        exact ⟨v0, rfl, hv0⟩
      | false => rw [he] at hj; exact ih2 k j hj

mutual
/-- A wire tree containing an unknown tag never revives successfully. -/
theorem parseVal_unknown (w : World) (reg : Registry) : ∀ (j : Json),
    hasUnknownTag reg j = true → ∃ e, parseVal w reg j = .error e
  | .jnull, h => by rw [hasUnknownTag] at h; exact absurd h (by simp)
  | .jbool b, h => by rw [hasUnknownTag] at h; exact absurd h (by simp)
  | .jnum n, h => by rw [hasUnknownTag] at h; exact absurd h (by simp)
  | .jstr s, h => by rw [hasUnknownTag] at h; exact absurd h (by simp)
  | .jarr xs, h => by
    rw [hasUnknownTag] at h
    obtain ⟨e, he⟩ := parseArr_unknown w reg xs h
    exact ⟨e, by rw [parseVal_jarr, he]; rfl⟩
  | .jobj fs, h => by
    rw [hasUnknownTag, Bool.or_eq_true] at h
    cases hB : hasUnknownTagFields reg fs with
    | true =>
      obtain ⟨e, he⟩ := parseFields_unknown w reg fs hB
      exact ⟨e, by rw [parseVal_jobj, he]; rfl⟩
    | false =>
      have hA : (match fs.lookup "$MAGIC$" with
          | some (.jobj ms) =>
            (ms.lookup "$MAGIC$").isNone &&
            (match ms.lookup "cls" with
             | some (.jstr s) => (List.lookup s reg).isNone
             | _ => false)
          | _ => false) = true := by
        rcases h with h | h
        · exact h
        · rw [hB] at h; exact absurd h (by simp)
      cases hpf : parseFields w reg fs with
      | error e => exact ⟨e, by rw [parseVal_jobj, hpf]; rfl⟩
      | ok fs2 =>
        cases hl : fs.lookup "$MAGIC$" with
        | none => rw [hl] at hA; exact absurd hA (by simp)
        | some mj =>
          rw [hl] at hA
          cases mj with
          | jobj ms =>
            rw [Bool.and_eq_true] at hA
            obtain ⟨hms, hcls⟩ := hA
            cases hc : ms.lookup "cls" with
            | none => rw [hc] at hcls; exact absurd hcls (by simp)
            | some cj =>
              rw [hc] at hcls
              cases cj with
              | jstr s =>
                have hregN : List.lookup s reg = none := by
                  simpa [Option.isNone_iff_eq_none] using hcls
                obtain ⟨v, hv2, hpv⟩ := (parseFields_keys w reg fs fs2 hpf).2 "$MAGIC$" (.jobj ms) hl
                rw [parseVal_jobj] at hpv
                cases hpm : parseFields w reg ms with
                | error e => rw [hpm] at hpv; exact absurd hpv (by simp [Except.bind])
                | ok ms2 =>
                  rw [hpm] at hpv
                  have hms2 : ms2.lookup "$MAGIC$" = none :=
                    (parseFields_keys w reg ms ms2 hpm).1 "$MAGIC$"
                      (by simpa [Option.isNone_iff_eq_none] using hms)
                  have hrev : reviver w reg (.vobj ms2) = .ok (.vobj ms2) :=
                    reviver_pass w reg (by simp [prop, getPropOpt, hms2, truthy])
                  have hv : v = .vobj ms2 := by
                    rw [show Except.bind (Except.ok ms2)
                        (fun fs3 => reviver w reg (Value.vobj fs3)) =
                        reviver w reg (.vobj ms2) from rfl, hrev] at hpv
                    exact (Except.ok.inj hpv).symm
                  subst hv
                  obtain ⟨u, hu2, hpu⟩ := (parseFields_keys w reg ms ms2 hpm).2 "cls" (.jstr s) hc
                  have hu : u = .vstr s := by
                    rw [show parseVal w reg (.jstr s) = reviver w reg (.vstr s) from rfl,
                      reviver_pass w reg (v := .vstr s) rfl] at hpu
                    exact (Except.ok.inj hpu).symm
                  subst hu
                  refine ⟨.unknownClass (.vobj ms2), ?_⟩
                  rw [parseVal_jobj, hpf]
                  show reviver w reg (.vobj fs2) = _
                  unfold reviver
                  have m1 : prop (Value.vobj fs2) "$MAGIC$" = .vobj ms2 := by
                    simp [prop, getPropOpt, hv2]
                  have m2 : jsToKey (prop (Value.vobj ms2) "cls") = s := by
                    simp [prop, getPropOpt, hu2, jsToKey]
                  have t0 : truthy (Value.vobj fs2) = true := rfl
                  have t1 : truthy (Value.vobj ms2) = true := rfl
                  rw [m1]
                  simp only [t0, t1, m2, hregN]
                  simp
              | jnull => exact absurd hcls (by simp)
              | jbool b => exact absurd hcls (by simp)
              | jnum n => exact absurd hcls (by simp)
              | jarr ys => exact absurd hcls (by simp)
              | jobj gs => exact absurd hcls (by simp)
          | jnull => exact absurd hA (by simp)
          | jbool b => exact absurd hA (by simp)
          | jnum n => exact absurd hA (by simp)
          | jstr s2 => exact absurd hA (by simp)
          | jarr ys => exact absurd hA (by simp)

/-- Unknown-tag failure propagates out of array elements. -/
theorem parseArr_unknown (w : World) (reg : Registry) : ∀ (xs : List Json),
    hasUnknownTagList reg xs = true → ∃ e, parseArr w reg xs = .error e
  | [], h => by rw [hasUnknownTagList] at h; exact absurd h (by simp)
  | j :: js, h => by
    rw [hasUnknownTagList, Bool.or_eq_true] at h
    cases hv : parseVal w reg j with
    | error e => exact ⟨e, by unfold parseArr; rw [hv]; rfl⟩
    | ok v =>
      have hjs : hasUnknownTagList reg js = true := by
        rcases h with h | h
        · obtain ⟨e, he⟩ := parseVal_unknown w reg j h
          rw [hv] at he
          exact absurd he (by simp)
        · exact h
      obtain ⟨e, he⟩ := parseArr_unknown w reg js hjs
      exact ⟨e, by unfold parseArr; rw [hv, he]; rfl⟩

/-- Unknown-tag failure propagates out of object fields. -/
theorem parseFields_unknown (w : World) (reg : Registry) : ∀ (fs : List (String × Json)),
    hasUnknownTagFields reg fs = true → ∃ e, parseFields w reg fs = .error e
  | [], h => by rw [hasUnknownTagFields] at h; exact absurd h (by simp)
  | kv :: fs, h => by
    rw [hasUnknownTagFields, Bool.or_eq_true] at h
    obtain ⟨k0, j0⟩ := kv
    cases hv : parseVal w reg j0 with
    | error e => exact ⟨e, by unfold parseFields; rw [hv]; rfl⟩
    | ok v =>
      have hfs : hasUnknownTagFields reg fs = true := by
        rcases h with h | h
        · obtain ⟨e, he⟩ := parseVal_unknown w reg j0 h
          rw [hv] at he
          exact absurd he (by simp)
        · exact h
      obtain ⟨e, he⟩ := parseFields_unknown w reg fs hfs
      exact ⟨e, by unfold parseFields; rw [hv, he]; rfl⟩
end

/-- C2: a tag node whose cls name the registry does not map is decoded
to the unknown-class JSONFError carrying the full tag record as context;
and any decode whose input contains such a tag fails outright, producing
no partial result — an absent name is never resolved by a fallback. -/
theorem claim2_unknown_class (w : World) (reg : Registry) :
    (∀ v m, truthy v = true → prop v "$MAGIC$" = m → truthy m = true →
      List.lookup (jsToKey (prop m "cls")) reg = none →
      reviver w reg v = .error (.unknownClass m)) ∧
    (∀ j, hasUnknownTag reg j = true → ∃ e, parse w reg j = .error e) := by
  constructor
  · intro v m hv hm ht hr
    unfold reviver
    simp [hv, hm, ht, hr]
  · exact fun j h => parseVal_unknown w reg j h

/-- Witness for C2: a node tagged with the unregistered name X fails
with the unknown-class error carrying the tag, and a tree containing
such a tag fails to decode altogether. -/
theorem claim2_witness :
    reviver [] [] (.vobj [("$MAGIC$", .vobj [("cls", .vstr "X")])]) =
      .error (.unknownClass (.vobj [("cls", .vstr "X")])) ∧
    ∃ e, parse [] [] (.jarr [.jnum 1, .jobj [("$MAGIC$", .jobj [("cls", .jstr "X")])]]) = .error e :=
  ⟨(claim2_unknown_class [] []).1 _ _ rfl rfl rfl rfl,
   (claim2_unknown_class [] []).2 _ rfl⟩

end Jsonf

namespace JsonfHeap

/-- Updating a stored property makes it the value read back. -/
theorem setProp_lookup_self : ∀ (ps : List (String × BVal)) (k : String) (v : BVal),
    (setProp ps k v).lookup k = some v
  | [], k, v => by simp [setProp, List.lookup]
  | (k0, v0) :: ps, k, v => by
    unfold setProp
    by_cases h : k0 = k
    · simp [h, List.lookup]
    · rw [if_neg h, List.lookup]
      have hb : (k == k0) = false := beq_eq_false_iff_ne.mpr (Ne.symm h)
      rw [hb]
      exact setProp_lookup_self ps k v

/-- Updating an existing cell makes it the cell read back. -/
theorem setEntry_lookup_of_mem {α : Type} : ∀ (xs : List (Nat × α)) (k : Nat) (c c0 : α),
    xs.lookup k = some c0 → (setEntry xs k c).lookup k = some c
  | [], k, c, c0, h => by simp [List.lookup] at h
  | (k0, x0) :: xs, k, c, c0, h => by
    unfold setEntry
    by_cases he : k0 = k
    · simp [he, List.lookup]
    · rw [if_neg he, List.lookup]
      have hb : (k == k0) = false := beq_eq_false_iff_ne.mpr (Ne.symm he)
      rw [hb]
      rw [List.lookup, hb] at h
      exact setEntry_lookup_of_mem xs k c c0 h

/-- C8 (amended): the referrable helper itself leaves every object's
property table unchanged — it mutates only the marked function value —
but the decorator initializers of JSONF.referBound and JSONF.referrable
additionally define an own property named after the member on the
instance under construction, so the origin instance is mutated. -/
theorem claim8_helper_effects (st : Bool) (cn : String) (t : BVal) (k : String)
    (vf : Nat) (b : Bool) (h : BHeap) (self : Nat) (cell : ObjCell)
    (hobj : h.objs.lookup self = some cell) (hko : cell.props.lookup k = none) :
    ((referrable st cn t k vf b h).2).objs = h.objs ∧
    readMember (initMember cn k vf b self h) self k =
      some (referrable false cn (.oref self) k vf b h).1 ∧
    (initMember cn k vf b self h).objs ≠ h.objs := by
  have hpres : ∀ (st2 : Bool) (t2 : BVal), ((referrable st2 cn t2 k vf b h).2).objs = h.objs := by
    intro st2 t2
    cases st2 <;> cases b <;> rfl
  refine ⟨hpres st t, ?_, ?_⟩
  · unfold initMember setObjProp
    have hobj2 : ((referrable false cn (.oref self) k vf b h).2).objs.lookup self = some cell := by
      rw [hpres false (.oref self)]; exact hobj
    rw [hobj2]
    unfold readMember
    rw [setEntry_lookup_of_mem _ self _ cell hobj2]
    exact setProp_lookup_self cell.props k _
  · intro heq
    unfold initMember setObjProp at heq
    have hobj2 : ((referrable false cn (.oref self) k vf b h).2).objs.lookup self = some cell := by
      rw [hpres false (.oref self)]; exact hobj
    rw [hobj2] at heq
    dsimp only at heq
    have h1 := setEntry_lookup_of_mem ((referrable false cn (.oref self) k vf b h).2).objs self
      { cell with props := setProp cell.props k (referrable false cn (.oref self) k vf b h).1 } cell hobj2
    rw [heq] at h1
    rw [hobj] at h1
    have h2 := congrArg (fun c => (ObjCell.props c).lookup k) (Option.some.inj h1)
    simp only at h2
    rw [hko] at h2
    rw [setProp_lookup_self cell.props k _] at h2
    exact Option.noConfusion h2

/-- Witness for C8: a concrete instance with no own property foo gains
one holding the shared marked method when the initializer runs, while
the helper call itself leaves the object table unchanged. -/
theorem claim8_witness :
    ((referrable false "Fancy" (.oref 1) "foo" 0 false
        { funcs := [(0, { magic := none })], objs := [(1, { cls := "Fancy", props := [] })], next := 2 }).2).objs =
      [(1, { cls := "Fancy", props := [] })] ∧
    readMember (initMember "Fancy" "foo" 0 false 1
        { funcs := [(0, { magic := none })], objs := [(1, { cls := "Fancy", props := [] })], next := 2 }) 1 "foo" =
      some (.fref 0) ∧
    (initMember "Fancy" "foo" 0 false 1
        { funcs := [(0, { magic := none })], objs := [(1, { cls := "Fancy", props := [] })], next := 2 }).objs ≠
      [(1, { cls := "Fancy", props := [] })] :=
  claim8_helper_effects false "Fancy" (.oref 1) "foo" 0 false
    { funcs := [(0, { magic := none })], objs := [(1, { cls := "Fancy", props := [] })], next := 2 }
    1 { cls := "Fancy", props := [] } rfl rfl

/-- Counterexample for C8 as stated: invoking the decorator initializer
on a concrete instance changes the instance's own property table — the
origin is mutated, beyond attaching metadata to the produced value. -/
theorem claim8_counterexample :
    readMember
        { funcs := [(0, { magic := none })], objs := [(1, { cls := "Fancy", props := [] })], next := 2 }
        1 "foo" = none ∧
    readMember (initMember "Fancy" "foo" 0 false 1
        { funcs := [(0, { magic := none })], objs := [(1, { cls := "Fancy", props := [] })], next := 2 })
        1 "foo" = some (.fref 0) ∧
    (initMember "Fancy" "foo" 0 false 1
        { funcs := [(0, { magic := none })], objs := [(1, { cls := "Fancy", props := [] })], next := 2 }).objs ≠
      [(1, { cls := "Fancy", props := [] })] := by
  refine ⟨rfl, rfl, ?_⟩
  decide

/-- C9: for a class with an instance member decorated as an unbound
reference, construction mutates the shared method in place: after
constructing two instances, both instances' decorated member is the very
same function object, and that function's tag has ths referring to the
most recently constructed instance, not the instance the member was
read from. -/
theorem claim9_shared_method_mutation (cn k : String) (f0 n : Nat) (fc : FuncCell)
    (p1 p2 : List (String × BVal)) (a b : Nat) (h1 h2 : BHeap)
    (e1 : construct { name := cn, decorated := [(k, f0, false)] } p1
      { funcs := [(f0, fc)], objs := [], next := n } = (a, h1))
    (e2 : construct { name := cn, decorated := [(k, f0, false)] } p2 h1 = (b, h2)) :
    readMember h2 a k = some (.fref f0) ∧
    readMember h2 b k = some (.fref f0) ∧
    funcMagic h2 f0 = some { cls := cn, ths := some (.oref b), key := k } ∧
    b ≠ a := by
  have hne : ((n + 1 : Nat) == n) = false := beq_eq_false_iff_ne.mpr (by omega)
  have hne2 : ¬(n = n + 1) := by omega
  have hc1 : construct { name := cn, decorated := [(k, f0, false)] } p1
      { funcs := [(f0, fc)], objs := [], next := n } =
      (n, { funcs := [(f0, { magic := some { cls := cn, ths := some (.oref n), key := k } })],
            objs := [(n, { cls := cn, props := setProp p1 k (.fref f0) })],
            next := n + 1 }) := by
    simp [construct, initMember, referrable, setFuncMagic, setObjProp, setEntry, List.lookup]
  rw [hc1] at e1
  injection e1 with ha hh1
  subst ha
  subst hh1
  have hc2 : construct { name := cn, decorated := [(k, f0, false)] } p2
      { funcs := [(f0, { magic := some { cls := cn, ths := some (.oref n), key := k } })],
        objs := [(n, { cls := cn, props := setProp p1 k (.fref f0) })],
        next := n + 1 } =
      (n + 1,
        { funcs := [(f0, { magic := some { cls := cn, ths := some (.oref (n + 1)), key := k } })],
          objs := [(n, { cls := cn, props := setProp p1 k (.fref f0) }),
                   (n + 1, { cls := cn, props := setProp p2 k (.fref f0) })],
          next := n + 1 + 1 }) := by
    simp [construct, initMember, referrable, setFuncMagic, setObjProp, setEntry, List.lookup, hne, hne2]
  rw [hc2] at e2
  injection e2 with hb hh2
  subst hb
  subst hh2
  refine ⟨?_, ?_, ?_, by omega⟩
  · simp [readMember, List.lookup, setProp_lookup_self]
  · simp [readMember, List.lookup, hne, setProp_lookup_self]
  · simp [funcMagic, List.lookup]

/-- Witness for C9: two concrete constructions of a class with the
unbound-decorated member foo share one function object whose tag points
at the second instance. -/
theorem claim9_witness :
    readMember (construct { name := "Fancy", decorated := [("foo", 0, false)] } []
        (construct { name := "Fancy", decorated := [("foo", 0, false)] } []
          { funcs := [(0, { magic := none })], objs := [], next := 1 }).2).2 1 "foo" =
      some (.fref 0) ∧
    readMember (construct { name := "Fancy", decorated := [("foo", 0, false)] } []
        (construct { name := "Fancy", decorated := [("foo", 0, false)] } []
          { funcs := [(0, { magic := none })], objs := [], next := 1 }).2).2 2 "foo" =
      some (.fref 0) ∧
    funcMagic (construct { name := "Fancy", decorated := [("foo", 0, false)] } []
        (construct { name := "Fancy", decorated := [("foo", 0, false)] } []
          { funcs := [(0, { magic := none })], objs := [], next := 1 }).2).2 0 =
      some { cls := "Fancy", ths := some (.oref 2), key := "foo" } ∧
    (2 : Nat) ≠ 1 :=
  claim9_shared_method_mutation "Fancy" "foo" 0 1 { magic := none } [] [] 1 2 _ _ rfl rfl

end JsonfHeap
